import Mathlib

/-!
Verification of the GPS_Dron drone-fleet planner.

Shallow embedding of the three core components:
* graph_service.py  — zone-weighted road-graph builder,
* routing_service.py — energy-constrained route planner,
* api_server.py     — fleet scheduler / simulation tick.

Conventions of the embedding:
* Python floats are modelled as rationals (ℚ); `float('inf')` is modelled by
  `⊤` in `WithTop ℚ`.
* Irrational library primitives (`math.sqrt`, `np.cos`, `haversine_m`) are
  taken as explicit function parameters (`Approx`), since their exact values
  never decide the verified control flow except through comparisons; where the
  source uses `sqrt` only inside a comparison we compare squares instead
  (strict monotonicity of `sqrt` on nonnegatives makes this equivalent).
* networkx primitives used by the source (`astar_path`, `dijkstra_path`,
  `shortest_path`, `has_path`, `node_connected_component`) are external
  collaborators and appear as function parameters of the definitions that
  call them; every theorem quantifies over their behaviour.
* Python dicts of attributes become structures; an attribute read through
  `.get(key, default)` that may be absent is modelled by storing the default.
-/

namespace GPSDron

/-- A geographic point `(lat, lon)`. -/
abbrev Pt : Type := ℚ × ℚ

/-- Graph node identifiers: ordinary road-network ids (integers in the
source) and the tuple keys `('tmp_start', n)`, `('tmp_end', n)`,
`('tmp_wp', n)` that `plan_direct_path` creates for temporary nodes. -/
inductive NodeId where
  | road : Nat → NodeId
  | temp : String → Nat → NodeId
deriving DecidableEq

/-- Node attribute dict. `pos` may be absent (the source guards every read
with `'pos' in attr` / truthiness checks). `weight` is read through
`attr.get('weight', 0)` when absent, so a node created without a weight
stores `0`. -/
structure NodeData where
  pos : Option Pt
  weight : WithTop ℚ
  ntype : String
deriving DecidableEq

/-- Edge attribute dict of the networkx graph. -/
structure EdgeData where
  weight : WithTop ℚ
  etype : String
deriving DecidableEq

/-- An undirected networkx `Graph`: insertion-ordered node map and edge list;
an edge `(u, v, d)` also represents `(v, u, d)`. -/
structure Graph where
  nodes : List (NodeId × NodeData)
  edges : List (NodeId × NodeId × EdgeData)
deriving DecidableEq

namespace Graph

def keys (G : Graph) : List NodeId := G.nodes.map Prod.fst

def containsNode (G : Graph) (k : NodeId) : Bool := G.nodes.any (fun nd => nd.1 == k)

def findNode (G : Graph) (k : NodeId) : Option NodeData :=
  (G.nodes.find? (fun nd => nd.1 == k)).map Prod.snd

/-- Position of a node, `G.nodes[k].get('pos')`; `none` when the node or the
attribute is missing. -/
def findPos (G : Graph) (k : NodeId) : Option Pt :=
  (G.findNode k).bind NodeData.pos

/-- `G.add_node(k, **d)`. Our call sites always pass the complete attribute
set, so updating an existing node replaces its data. -/
def addNode (G : Graph) (k : NodeId) (d : NodeData) : Graph :=
  if G.containsNode k then
    { G with nodes := G.nodes.map (fun nd => if nd.1 == k then (k, d) else nd) }
  else
    { G with nodes := G.nodes ++ [(k, d)] }

end Graph

/-- Does edge `e` have `k` as an endpoint? -/
def edgeTouches (k : NodeId) (e : NodeId × NodeId × EdgeData) : Bool :=
  e.1 == k || e.2.1 == k

/-- Does `e` connect `u` and `v` (in either orientation)? -/
def edgeMatches (u v : NodeId) (e : NodeId × NodeId × EdgeData) : Bool :=
  (e.1 == u && e.2.1 == v) || (e.1 == v && e.2.1 == u)

namespace Graph

/-- networkx `add_edge` creates missing endpoints as attribute-less nodes. -/
def ensureNode (G : Graph) (k : NodeId) : Graph :=
  if G.containsNode k then G else { G with nodes := G.nodes ++ [(k, ⟨none, 0, ""⟩)] }

/-- `G.add_edge(u, v, **d)`: update the edge data if the (undirected) edge
exists, otherwise append it. -/
def addEdge (G : Graph) (u v : NodeId) (d : EdgeData) : Graph :=
  let G1 := (G.ensureNode u).ensureNode v
  if G1.edges.any (edgeMatches u v) then
    { G1 with edges := G1.edges.map (fun e => if edgeMatches u v e then (e.1, e.2.1, d) else e) }
  else
    { G1 with edges := G1.edges ++ [(u, v, d)] }

/-- `G.remove_node(k)`: drop the node and every incident edge. -/
def removeNode (G : Graph) (k : NodeId) : Graph :=
  { nodes := G.nodes.filter (fun nd => !(nd.1 == k)),
    edges := G.edges.filter (fun e => !(edgeTouches k e)) }

/-- The guarded `if k in G: G.remove_node(k)` of the cleanup code. -/
def removeNodeIfPresent (G : Graph) (k : NodeId) : Graph :=
  if G.containsNode k then G.removeNode k else G

def hasEdge (G : Graph) (u v : NodeId) : Bool := G.edges.any (edgeMatches u v)

def findEdge (G : Graph) (u v : NodeId) : Option EdgeData :=
  (G.edges.find? (edgeMatches u v)).map (fun e => e.2.2)

/-- Well-formedness delivered by networkx: node keys are unique and every
edge endpoint is a present node. -/
def Wf (G : Graph) : Prop :=
  G.keys.Nodup ∧ ∀ e ∈ G.edges, e.1 ∈ G.keys ∧ e.2.1 ∈ G.keys

instance : DecidablePred Wf := fun G => by
  unfold Wf
  infer_instance

end Graph

/-! ## No-fly zones (graph_service.py) -/

/-- Rectangular no-fly zone `{lat_min, lat_max, lon_min, lon_max}`. The
source tolerates zone dicts with missing bounds (treated as no-op); zones
built by the API always carry all four numeric bounds, which is what we
model. -/
structure Zone where
  lat_min : ℚ
  lat_max : ℚ
  lon_min : ℚ
  lon_max : ℚ
deriving DecidableEq

/-- The min/max normalisation both zone tests perform. -/
def Zone.norm (z : Zone) : Zone :=
  { lat_min := min z.lat_min z.lat_max, lat_max := max z.lat_min z.lat_max,
    lon_min := min z.lon_min z.lon_max, lon_max := max z.lon_min z.lon_max }

/-- `GraphService._point_in_no_fly_zone`. -/
def pointInNoFlyZone (p : Pt) (z : Zone) : Bool :=
  let n := z.norm
  decide (n.lat_min ≤ p.1 ∧ p.1 ≤ n.lat_max ∧ n.lon_min ≤ p.2 ∧ p.2 ≤ n.lon_max)

/-- The `ccw` helper of `_segment_intersects_zone` (strict orientation
test). Points are `(lat, lon)`, so Python index `[0]` is `.1` and `[1]`
is `.2`. -/
def ccw (p1 p2 p3 : Pt) : Bool :=
  decide ((p3.2 - p1.2) * (p2.1 - p1.1) > (p2.2 - p1.2) * (p3.1 - p1.1))

/-- The `segments_intersect` helper of `_segment_intersects_zone`. -/
def segmentsIntersect (p1 p2 p3 p4 : Pt) : Bool :=
  (ccw p1 p3 p4 != ccw p2 p3 p4) && (ccw p1 p2 p3 != ccw p1 p2 p4)

/-- `GraphService._segment_intersects_zone`: bounding-box pre-check, inclusive
endpoint-inside check, then the four rectangle-edge segment tests. -/
def segmentIntersectsZone (a b : Pt) (z : Zone) : Bool :=
  let n := z.norm
  let segLatMin := min a.1 b.1
  let segLatMax := max a.1 b.1
  let segLonMin := min a.2 b.2
  let segLonMax := max a.2 b.2
  if segLatMax < n.lat_min || segLatMin > n.lat_max ||
     segLonMax < n.lon_min || segLonMin > n.lon_max then
    false
  else if (decide (n.lat_min ≤ a.1 ∧ a.1 ≤ n.lat_max ∧ n.lon_min ≤ a.2 ∧ a.2 ≤ n.lon_max) ||
           decide (n.lat_min ≤ b.1 ∧ b.1 ≤ n.lat_max ∧ n.lon_min ≤ b.2 ∧ b.2 ≤ n.lon_max)) then
    true
  else
    let rectEdges : List (Pt × Pt) :=
      [((n.lat_min, n.lon_min), (n.lat_min, n.lon_max)),
       ((n.lat_max, n.lon_min), (n.lat_max, n.lon_max)),
       ((n.lat_min, n.lon_min), (n.lat_max, n.lon_min)),
       ((n.lat_min, n.lon_max), (n.lat_max, n.lon_max))]
    rectEdges.any (fun e => segmentsIntersect a b e.1 e.2)

/-- One zone's node pass of `_add_no_fly_zones`: every positioned node inside
the rectangle gets weight `+inf`. -/
def applyZoneNodes (G : Graph) (z : Zone) : Graph :=
  { G with nodes := G.nodes.map (fun nd =>
      match nd.2.pos with
      | none => nd
      | some p => if pointInNoFlyZone p z then (nd.1, { nd.2 with weight := ⊤ }) else nd) }

/-- The edge-loop body of `_add_no_fly_zones` for a single edge: block the
edge if an endpoint is inside the zone or the segment intersects it. A
failed position lookup reproduces the `except Exception: continue`. -/
def zoneEdgeData (G : Graph) (z : Zone) (e : NodeId × NodeId × EdgeData) : EdgeData :=
  match G.findNode e.1, G.findNode e.2.1 with
  | some du, some dv =>
    if (du.pos.elim false (fun p => pointInNoFlyZone p z)) ||
       (dv.pos.elim false (fun p => pointInNoFlyZone p z)) then
      { e.2.2 with weight := ⊤ }
    else
      match du.pos, dv.pos with
      | some up, some vp =>
          if segmentIntersectsZone up vp z then { e.2.2 with weight := ⊤ } else e.2.2
      | _, _ => e.2.2
  | _, _ => e.2.2

/-- One zone's edge pass of `_add_no_fly_zones`. -/
def applyZoneEdges (G : Graph) (z : Zone) : Graph :=
  { G with edges := G.edges.map (fun e => (e.1, e.2.1, zoneEdgeData G z e)) }

/-- `GraphService._add_no_fly_zones`: for each zone, mark inside nodes, then
block inside/intersecting edges. -/
def addNoFlyZones (G : Graph) (zones : List Zone) : Graph :=
  zones.foldl (fun g z => applyZoneEdges (applyZoneNodes g z) z) G

/-- Is the edge with endpoint positions `up`, `vp` affected by zone `z`
(inside endpoint or geometric intersection)? -/
def edgeTouchedByZone (up vp : Pt) (z : Zone) : Bool :=
  pointInNoFlyZone up z || pointInNoFlyZone vp z || segmentIntersectsZone up vp z

/-- The node transformer of one zone pass, named for reasoning. -/
def zoneNodeStep (z : Zone) (nd : NodeId × NodeData) : NodeId × NodeData :=
  match nd.2.pos with
  | none => nd
  | some p => if pointInNoFlyZone p z then (nd.1, { nd.2 with weight := ⊤ }) else nd

/-! ## Graph builder (graph_service.py) -/

/-- Drone parameter record of `GraphService._get_drone_params`. -/
structure DroneParams where
  weight : ℚ
  max_altitude : ℚ
  battery_range : ℚ
deriving DecidableEq

/-- `GraphService._get_drone_params`: dict lookup with `params["cargo"]` as
the default for unknown types. -/
def gsGetDroneParams (t : String) : DroneParams :=
  if t = "cargo" then ⟨2, 200, 20000⟩
  else if t = "operator" then ⟨3/2, 150, 15000⟩
  else if t = "cleaner" then ⟨1, 100, 10000⟩
  else ⟨2, 200, 20000⟩

/-- `RoutingService._get_drone_params(...)['battery_range']`, default branch
`{"battery_range": 20000}`. -/
def rsGetDroneParamsRange (t : String) : ℚ :=
  if t = "cargo" then 20000
  else if t = "operator" then 15000
  else if t = "cleaner" then 10000
  else 20000

/-- A raw osmnx road node: id plus optional `x`/`y` coordinate attributes
(`_convert_ox_graph_to_nx` skips nodes missing either). -/
structure OxNode where
  nid : Nat
  x : Option ℚ
  y : Option ℚ
deriving DecidableEq

/-- A raw osmnx road edge; `elen` is `data.get('length', 0)`. -/
structure OxEdge where
  u : Nat
  v : Nat
  elen : ℚ
deriving DecidableEq

/-- The raw road network handed to the builder. -/
structure RoadNetwork where
  nodes : List OxNode
  edges : List OxEdge
deriving DecidableEq

/-- External irrational primitives and networkx algorithms, taken as
parameters of the embedding (see the file comment). -/
structure RouteOracles where
  sqrtQ : ℚ → ℚ
  cosQ : ℚ → ℚ
  astar : Graph → NodeId → NodeId → Option (List NodeId)
  dijkstra : Graph → NodeId → NodeId → Option (List NodeId)
  shortestPath : Graph → NodeId → NodeId → Option (List NodeId)
  hasPath : Graph → NodeId → NodeId → Bool
  connectedComp : Graph → NodeId → List NodeId

/-- Edge length used by `_convert_ox_graph_to_nx`: the supplied length, or
the degree-space euclidean distance scaled to meters when it is `0`. -/
def oxEdgeLen (O : RouteOracles) (g : Graph) (e : OxEdge) : ℚ :=
  if e.elen = 0 then
    match g.findPos (NodeId.road e.u), g.findPos (NodeId.road e.v) with
    | some p1, some p2 => O.sqrtQ ((p1.1 - p2.1)^2 + (p1.2 - p2.2)^2) * 111000
    | _, _ => 0
  else e.elen

/-- The node pass of `_convert_ox_graph_to_nx`: skip nodes without both
coordinates, store `pos=(y, x)` and `weight=1.0`. -/
def convertNodeStep (g : Graph) (n : OxNode) : Graph :=
  match n.x, n.y with
  | some x, some y => g.addNode (NodeId.road n.nid) ⟨some (y, x), 1, "road"⟩
  | _, _ => g

/-- The edge pass of `_convert_ox_graph_to_nx`: only edges between
surviving nodes are added. -/
def convertEdgeStep (O : RouteOracles) (g : Graph) (e : OxEdge) : Graph :=
  if g.containsNode (NodeId.road e.u) && g.containsNode (NodeId.road e.v) then
    g.addEdge (NodeId.road e.u) (NodeId.road e.v) ⟨((oxEdgeLen O g e : ℚ) : WithTop ℚ), "road"⟩
  else g

/-- `GraphService._convert_ox_graph_to_nx`: keep coordinated nodes with
`pos=(y, x)`, `weight=1.0`; add edges between surviving nodes with the given
length, or the spherical approximation when the length is `0`. -/
def convertOxGraphToNx (O : RouteOracles) (rn : RoadNetwork) : Graph :=
  rn.edges.foldl (convertEdgeStep O) (rn.nodes.foldl convertNodeStep (⟨[], []⟩ : Graph))

/-- `GraphService.build_city_graph`, modelled at the `buildings = None`
input (the builder then skips `_add_drone_specific_nodes`, which never
raises and is irrelevant to the verified claims): convert the road graph,
raise on an empty result, then apply the no-fly zones. -/
def buildCityGraph (O : RouteOracles) (rn : RoadNetwork) (zones : List Zone) :
    Except String Graph :=
  let G := convertOxGraphToNx O rn
  if G.nodes.length == 0 then Except.error "empty road graph"
  else Except.ok (if zones.isEmpty then G else addNoFlyZones G zones)

/-! ## Route planner (routing_service.py) -/

/-- Squared Euclidean distance in degrees. The source compares
`sqrt((Δlat)² + (Δlon)²)` values; `sqrt` is strictly monotone on
nonnegatives, so all comparisons are done on the squares. -/
def sqDist (p q : Pt) : ℚ := (p.1 - q.1)^2 + (p.2 - q.2)^2

/-- All nodes carrying a `pos` attribute, in graph order. -/
def posNodes (G : Graph) : List (NodeId × Pt) :=
  G.nodes.filterMap (fun nd => nd.2.pos.map (fun p => (nd.1, p)))

/-- Kernel-reducible absolute value on ℚ (equal to `abs`). -/
def absQ (q : ℚ) : ℚ := if q < 0 then -q else q

/-- The square box filter of `_find_nearest_node`
(`abs(node_lat - lat) <= r and abs(node_lon - lon) <= r`). -/
def nodesWithinBox (G : Graph) (p : Pt) (r : ℚ) : List (NodeId × Pt) :=
  (posNodes G).filter (fun np => decide (absQ (np.2.1 - p.1) ≤ r ∧ absQ (np.2.2 - p.2) ≤ r))

/-- The graduated candidate collection of `_find_nearest_node`: ~1 km box,
then ~10 km box, then the first `min(5000, |nodes|)` positioned nodes. -/
def nodesToCheck (G : Graph) (p : Pt) : List (NodeId × Pt) :=
  let s1 := nodesWithinBox G p (1/100)
  if s1.isEmpty then
    let s2 := nodesWithinBox G p (1/10)
    if s2.isEmpty then (posNodes G).take (min 5000 G.nodes.length) else s2
  else s1

/-- One comparison of the final scan of `_find_nearest_node`
(`if dist < min_dist`, with `min_dist` initially infinite). -/
def selNearStep (p : Pt) (best : Option (NodeId × Pt)) (np : NodeId × Pt) :
    Option (NodeId × Pt) :=
  match best with
  | none => some np
  | some b => if sqDist p np.2 < sqDist p b.2 then some np else some b

/-- The final scan of `_find_nearest_node`: first strict minimum of the
distance (initial `min_dist = inf`). -/
def selectNearest (p : Pt) (cands : List (NodeId × Pt)) : Option NodeId :=
  (cands.foldl (selNearStep p) none).map Prod.fst

/-- `RoutingService._find_nearest_node`. Note the source applies no weight
filter: blocked (`+inf`-weight) nodes are eligible. -/
def findNearestNode (G : Graph) (p : Pt) : Option NodeId :=
  selectNearest p (nodesToCheck G p)

/-- `_approx_dist` of `plan_direct_path`: meters between two lat/lon pairs. -/
def approxDist (O : RouteOracles) (a b : Pt) : ℚ :=
  let latDiff := (a.1 - b.1) * 111000
  let avgLat := (a.1 + b.1) / 2
  let lonDiff := (a.2 - b.2) * 111000 * O.cosQ avgLat
  O.sqrtQ (latDiff^2 + lonDiff^2)

/-- `RoutingService._calculate_node_distance`; any lookup failure lands in
the `except` branch returning `1000.0`. -/
def calcNodeDistance (O : RouteOracles) (G : Graph) (n1 n2 : NodeId) : ℚ :=
  match G.findPos n1, G.findPos n2 with
  | some p1, some p2 =>
    let latM := (p1.1 - p2.1) * 111000
    let avgLat := (p1.1 + p2.1) / 2
    let lonM := (p1.2 - p2.2) * 111000 * O.cosQ avgLat
    O.sqrtQ (latM^2 + lonM^2)
  | _, _ => 1000

/-- `RoutingService._calculate_path_length`: sum positive edge weights
(`+inf` included, as in Python), falling back to the node distance for
nonpositive weights or absent edges. -/
def calcPathLength (O : RouteOracles) (G : Graph) (path : List NodeId) : WithTop ℚ :=
  (path.zip path.tail).foldl (fun acc uv =>
    acc + (match G.findEdge uv.1 uv.2 with
      | some d =>
        if 0 < d.weight then d.weight
        else ((calcNodeDistance O G uv.1 uv.2 : ℚ) : WithTop ℚ)
      | none => ((calcNodeDistance O G uv.1 uv.2 : ℚ) : WithTop ℚ))) 0

/-- `RoutingService._find_nearest_reachable_node`: scan the connected
component of `start` for the node nearest to `target`; a missing position
raises and the whole search returns `None`. -/
def fnrnLoop (G : Graph) (start : NodeId) (tp : Pt) :
    List NodeId → WithTop ℚ → Option NodeId → Option NodeId
  | [], _, best => best
  | n :: rest, bestD, best =>
    if n == start then fnrnLoop G start tp rest bestD best
    else
      match G.findPos n with
      | none => none
      | some np =>
        let d : WithTop ℚ := ((sqDist tp np : ℚ) : WithTop ℚ)
        if d < bestD then fnrnLoop G start tp rest d (some n)
        else fnrnLoop G start tp rest bestD best

def findNearestReachableNode (O : RouteOracles) (G : Graph) (start target : NodeId) :
    Option NodeId :=
  match G.findPos target with
  | none => none
  | some tp => fnrnLoop G start tp (O.connectedComp G start) ⊤ none

/-- The strategy loop of `_find_safe_path`: return the first result within
range, else remember the strictly shortest; afterwards apply the 2× best-
effort relaxation. -/
def tryAlgos (O : RouteOracles) (G : Graph) (maxRange : ℚ) :
    List (Option (List NodeId)) → Option (List NodeId) × WithTop ℚ → Option (List NodeId)
  | [], best =>
    match best with
    | (some p, bl) => if bl < ((2 * maxRange : ℚ) : WithTop ℚ) then some p else none
    | (none, _) => none
  | r :: rest, best =>
    match r with
    | some p =>
      if 1 < p.length then
        let len := calcPathLength O G p
        if len ≤ ((maxRange : ℚ) : WithTop ℚ) then some p
        else if len < best.2 then tryAlgos O G maxRange rest (some p, len)
        else tryAlgos O G maxRange rest best
      else tryAlgos O G maxRange rest best
    | none => tryAlgos O G maxRange rest best

/-- The connectivity fallback of `_find_safe_path`: keep `e` when a path
exists, else retarget to the nearest reachable node (the Python truthiness
test `if alternative_end` on a node id is modelled as an `Option` test). -/
def fspTarget (O : RouteOracles) (G : Graph) (start e : NodeId) : Option NodeId :=
  if O.hasPath G start e then some e
  else
    match findNearestReachableNode O G start e with
    | some alt => if alt != start then some alt else none
    | none => none

/-- The ordered strategy results tried by `_find_safe_path`. -/
def fspCandidates (O : RouteOracles) (G : Graph) (start e2 : NodeId) :
    List (Option (List NodeId)) :=
  [O.astar G start e2, O.dijkstra G start e2, O.shortestPath G start e2]

/-- The paths the strategy loop actually considers: strategies that
returned a list of more than one node. -/
def fspFound (O : RouteOracles) (G : Graph) (start e2 : NodeId) : List (List NodeId) :=
  ((fspCandidates O G start e2).filterMap id).filter (fun p => 1 < p.length)

/-- `RoutingService._find_safe_path`. A strategy raising an exception is a
`none` entry. -/
def findSafePath (O : RouteOracles) (G : Graph) (start e : NodeId) (maxRange : ℚ) :
    Option (List NodeId) :=
  if !(G.containsNode start) || !(G.containsNode e) then none
  else if start == e then some [start]
  else
    match fspTarget O G start e with
    | none => none
    | some e2 => tryAlgos O G maxRange (fspCandidates O G start e2) (none, ⊤)

/-- The `while key in G.nodes: key = (key[0], key[1]+1)` loops of
`plan_direct_path`, with fuel. Fuel `|nodes| + 1` always suffices. -/
def freshTempAux (G : Graph) (s : String) : Nat → Nat → Nat
  | 0, k => k
  | fuel + 1, k =>
    if G.containsNode (NodeId.temp s k) then freshTempAux G s fuel (k + 1) else k

/-- First free temporary key of shape `(s, _)` starting from the seed
(the seed models the CPython `id(...)` value used by the source). -/
def freshTemp (G : Graph) (s : String) (seed : Nat) : NodeId :=
  NodeId.temp s (freshTempAux G s (G.nodes.length + 1) seed)

/-- Wire a temporary node to its 5 nearest candidates with weight
`max(1.0, dist)`. -/
def connectTemp (G : Graph) (t : NodeId) (cands : List (NodeId × ℚ)) : Graph :=
  (cands.take 5).foldl
    (fun g nd => g.addEdge t nd.1 ⟨((max 1 nd.2 : ℚ) : WithTop ℚ), "temp_connection"⟩) G

/-- Adjacent pairs of a list (`sequence[i], sequence[i+1]`). -/
def adjPairs : List NodeId → List (NodeId × NodeId)
  | a :: b :: rest => (a, b) :: adjPairs (b :: rest)
  | _ => []

/-- The leg loop of `plan_direct_path`: search every consecutive pair,
fail as a whole when a leg fails, drop the shared node of later legs. -/
def chainLegsAux (O : RouteOracles) (G : Graph) (maxRange : ℚ) :
    List (NodeId × NodeId) → Bool → List NodeId → Option (List NodeId)
  | [], _, acc => some acc
  | pr :: rest, isFirst, acc =>
    match findSafePath O G pr.1 pr.2 maxRange with
    | none => none
    | some seg =>
      if seg.isEmpty then none
      else chainLegsAux O G maxRange rest false (acc ++ (if isFirst then seg else seg.tail))

/-- The candidate pool of `plan_direct_path`: positioned nodes whose weight
is not `+inf` (temporary nodes carry the default weight `0` and hence pass). -/
def tempCandidates (G : Graph) : List (NodeId × Pt) :=
  G.nodes.filterMap (fun nd =>
    match nd.2.pos with
    | some p => if nd.2.weight == ⊤ then none else some (nd.1, p)
    | none => none)

/-- One waypoint insertion of `plan_direct_path`: fresh `('tmp_wp', _)`
node at the waypoint, wired to the 5 nearest start-candidates. -/
def addWaypointNode (O : RouteOracles) (candS : List (NodeId × ℚ))
    (acc : Graph × List NodeId) (wp : Pt × Nat) : Graph × List NodeId :=
  let w := freshTemp acc.1 "tmp_wp" wp.2
  let Ga := acc.1.addNode w ⟨some wp.1, 0, "temp"⟩
  let Gb := (candS.take 5).foldl
    (fun g nd =>
      g.addEdge w nd.1
        ⟨((max 1 ((Ga.findPos nd.1).elim 0 (fun p => approxDist O wp.1 p)) : ℚ) : WithTop ℚ),
         "temp_connection"⟩) Ga
  (Gb, acc.2 ++ [w])

/-- `RoutingService.plan_direct_path`. Returns the result triple
`(path, coords, length)` together with the graph left behind by the call
(the shared graph is mutated in place by the source, so the final graph is
part of the observable behaviour). `seedS`, `seedE` and the per-waypoint
seeds model the `id(...)` start values of the temporary keys. -/
def planDirectPath (O : RouteOracles) (G : Graph) (startC endC : Pt) (maxRange : ℚ)
    (waypoints : List (Pt × Nat)) (seedS seedE : Nat) :
    (Option (List NodeId) × Option (List Pt) × WithTop ℚ) × Graph :=
  if G.nodes.isEmpty then ((none, none, 0), G)
  else
    match findNearestNode G startC, findNearestNode G endC with
    | some _, some _ =>
      let ts := freshTemp G "tmp_start" seedS
      let te := freshTemp G "tmp_end" seedE
      let G2 := (G.addNode ts ⟨some startC, 0, "temp"⟩).addNode te ⟨some endC, 0, "temp"⟩
      let candBase := tempCandidates G2
      let candS := (candBase.map (fun np => (np.1, approxDist O startC np.2))).mergeSort
        (fun a b => a.2 ≤ b.2)
      let candE := (candBase.map (fun np => (np.1, approxDist O endC np.2))).mergeSort
        (fun a b => a.2 ≤ b.2)
      let G4 := connectTemp (connectTemp G2 ts candS) te candE
      let G5wps := waypoints.foldl (addWaypointNode O candS) (G4, [])
      let G5 := G5wps.1
      let wps := G5wps.2
      let sequence := [ts] ++ wps ++ [te]
      let fullPath := chainLegsAux O G5 maxRange (adjPairs sequence) true []
      let G6 := wps.foldl Graph.removeNodeIfPresent
        ((G5.removeNodeIfPresent ts).removeNodeIfPresent te)
      match fullPath with
      | none => ((none, none, 0), G6)
      | some p =>
        if p.isEmpty then ((none, none, 0), G6)
        else
          -- `G.nodes[n]['pos'] if n in G.nodes else (start if n == tmp_start else end)`;
          -- a present node without `pos` raises, landing in the outer except.
          match p.mapM (fun n =>
              if G6.containsNode n then G6.findPos n
              else some (if n == ts then startC else endC)) with
          | none => ((none, none, 0), G6)
          | some coords => ((some p, some coords, calcPathLength O G6 p), G6)
    | _, _ => ((none, none, 0), G)

/-- The shape of the shared graph while `plan_direct_path` holds temporary
nodes: the original nodes followed by exactly the temporaries `T`, the
original edges followed by extra edges that each touch a temporary. -/
def TempExt (G : Graph) (T : List NodeId) (H : Graph) : Prop :=
  (∀ t ∈ T, t ∉ G.keys) ∧
  T.Nodup ∧
  (∃ extraN : List (NodeId × NodeData), H.nodes = G.nodes ++ extraN ∧
    extraN.map Prod.fst = T) ∧
  (∃ extraE : List (NodeId × NodeId × EdgeData), H.edges = G.edges ++ extraE ∧
    ∀ e ∈ extraE, ∃ t ∈ T, e.1 = t ∨ e.2.1 = t)

/-! ## Fleet scheduler (api_server.py)

The scheduler's route-planning callee `plan_route_for` (and through it the
whole routing stack) is abstracted as a `PlanFor` oracle returning the
`(coords, length)` part of its result triple (the `path` component is
never used by the scheduler); `haversine_m` is an explicit `Hav`
parameter. All scheduler theorems quantify over both. -/

/-- `(coords, length)` as returned by `plan_route_for` /
`plan_via_base_if_needed`. -/
abbrev PlanResult := Option (List Pt) × WithTop ℚ

abbrev PlanFor := Pt → Pt → String → ℚ → PlanResult

abbrev Hav := Pt → Pt → ℚ

/-- A drone record. Attributes the source creates lazily are stored at
their `.get(..., default)` values (`temp_c` 35, `history` `[]`,
`resume_route` `[]`); `link_quality`, `remaining_m`, `eta_s` are
write-only before first assignment and start at `0`. -/
structure Drone where
  pos : Pt
  dtype : String
  battery : ℚ
  route : List Pt
  resumeRoute : List Pt
  targetIdx : Nat
  status : String
  tempC : ℚ
  linkQuality : ℚ
  history : List Pt
  remainingM : ℚ
  etaS : ℤ
deriving DecidableEq

structure Order where
  oid : String
  otype : String
  start : Pt
  endp : Pt
  batteryLevel : ℚ
  status : String
  droneId : Option String
  routeLength : WithTop ℚ
deriving DecidableEq

/-- A charging queue `{charging: [...], queue: [...], capacity: n}`. -/
structure ChargeQueue where
  charging : List String
  queue : List String
  capacity : Nat
deriving DecidableEq

def defaultQueue : ChargeQueue := ⟨[], [], 2⟩

/-- The shared `STATE` dict (the parts the scheduler reads or writes). -/
structure FleetState where
  city : Option String
  cityGraph : Option Graph
  orders : List Order
  drones : List (String × Drone)
  noFlyZones : List Zone
  windMps : ℚ
  base : Option Pt
  inventory : List (String × Int)
  stations : List Pt
  stationQueues : List (String × ChargeQueue)
  baseQueue : ChargeQueue
deriving DecidableEq

/-- Python-dict insert: overwrite an existing key, else append. -/
def dictInsert {α : Type} (l : List (String × α)) (k : String) (v : α) :
    List (String × α) :=
  if l.any (fun kv => kv.1 = k) then l.map (fun kv => if kv.1 = k then (k, v) else kv)
  else l ++ [(k, v)]

/-- In-place mutation of the drone dict entry `did`. -/
def updateDrone (s : FleetState) (did : String) (d : Drone) : FleetState :=
  { s with drones := s.drones.map (fun kv => if kv.1 = did then (did, d) else kv) }

/-- `if not city or G is None: return` guard of the tick functions
(an empty city string is falsy). -/
def cityTruthy (s : FleetState) : Bool :=
  (match s.city with | some c => !(c == "") | none => false) && s.cityGraph.isSome

/-- The per-type consumption table (meters per 1% of battery) shared by
`battery_drain`, `plan_via_base_if_needed` and `can_escape_after`:
cargo 2000, operator 2500, cleaner 3000, default 2000. -/
def perType (t : String) : ℚ :=
  if t = "cargo" then 2000
  else if t = "operator" then 2500
  else if t = "cleaner" then 3000
  else 2000

/-- `move_towards`: linear interpolation with the fraction clamped
to `[0, 1]`. -/
def moveTowards (a b : Pt) (frac : ℚ) : Pt :=
  let f := max 0 (min 1 frac)
  (a.1 + (b.1 - a.1) * f, a.2 + (b.2 - a.2) * f)

/-- `is_point_in_any_zone` of api_server.py; its inline min/max
normalisation and inclusive box test coincide with
`_point_in_no_fly_zone`. -/
def isPointInAnyZone (zones : List Zone) (p : Pt) : Bool :=
  zones.any (fun z => pointInNoFlyZone p z)

/-- `is_at_any_station`: any station strictly within 20 m. -/
def isAtAnyStation (hav : Hav) (stations : List Pt) (p : Pt) : Bool :=
  stations.any (fun st => hav p st < 20)

/-- `nearest_station_index`: first strict minimum by distance, `None` on an
empty station list. -/
def nearestStationIndex (hav : Hav) (stations : List Pt) (p : Pt) : Option Nat :=
  (stations.enum.foldl (fun (best : Option Nat × WithTop ℚ) is =>
    if ((hav p is.2 : ℚ) : WithTop ℚ) < best.2 then (some is.1, ((hav p is.2 : ℚ) : WithTop ℚ))
    else best) (none, ⊤)).1

/-- `will_collide`: any other drone within the 8 m bubble of the candidate
position. -/
def willCollide (hav : Hav) (drones : List (String × Drone)) (did : String)
    (nextPos : Pt) : Bool :=
  drones.any (fun kv => if kv.1 = did then false else hav nextPos kv.2.pos < 8)

/-- `battery_drain`: per-type proportional drain clamped at 0, telemetry
drift, sparse history recording capped at 1000 points. -/
def batteryDrain (hav : Hav) (d : Drone) (distM : ℚ) : Drone :=
  let per := perType d.dtype
  let drain := distM / per * 100
  let b := max 0 (d.battery - drain)
  let t := d.tempC + (2/100) * (distM / 10)
  let doAppend := match d.history.getLast? with
    | none => true
    | some l => hav l d.pos > 5
  let hist :=
    if doAppend then
      let h2 := d.history ++ [d.pos]
      if h2.length > 1000 then h2.drop (h2.length - 1000) else h2
    else d.history
  { d with battery := b, tempC := t, history := hist }

/-- Round half-to-even at integer precision (CPython `round`). -/
def roundHalfEven (q : ℚ) : ℤ :=
  let f := ⌊q⌋
  let r := q - f
  if r < 1/2 then f
  else if 1/2 < r then f + 1
  else if f % 2 = 0 then f else f + 1

/-- `round(x, 2)`. -/
def round2 (q : ℚ) : ℚ := ((roundHalfEven (q * 100) : ℚ)) / 100

/-- `compute_link_quality`: path-loss model against the base, wind
adjusted, rounded to 2 decimals. -/
def computeLinkQuality (hav : Hav) (base : Option Pt) (wind : ℚ) (d : Drone) : Drone :=
  match base with
  | none => { d with linkQuality := 7/10 }
  | some b =>
    let dist := hav d.pos b
    let q : ℚ :=
      if dist ≤ 300 then 1
      else if dist ≥ 5000 then 1/10
      else max (5/100) (1 - (dist - 300) / (5000 - 300))
    let q2 := q * max (4/10) (1 - wind * (2/100))
    { d with linkQuality := round2 q2 }

/-- The charging candidates list (base first, then stations). -/
def chargersOf (base : Option Pt) (stations : List Pt) : List Pt :=
  (match base with | some b => [b] | none => []) ++ stations

/-- The nearest-charger scan of `maybe_route_to_base_or_station`. -/
def nearestCharger (hav : Hav) (chargers : List Pt) (pos : Pt) : Option Pt :=
  (chargers.foldl (fun (best : Option Pt × WithTop ℚ) c =>
    if ((hav pos c : ℚ) : WithTop ℚ) < best.2 then (some c, ((hav pos c : ℚ) : WithTop ℚ))
    else best) (none, ⊤)).1

/-- `maybe_route_to_base_or_station`: route the drone to the nearest
charger with `max(5, battery)` as the planning battery; only a non-empty
coordinate list commits the route. -/
def maybeRouteToBaseOrStation (hav : Hav) (planFor : PlanFor) (base : Option Pt)
    (stations : List Pt) (d : Drone) : Drone :=
  let chargers := chargersOf base stations
  if chargers.isEmpty then d
  else
    match nearestCharger hav chargers d.pos with
    | none => d
    | some best =>
      match planFor d.pos best d.dtype (max 5 d.battery) with
      | (some coords, _) =>
        if coords.isEmpty then d
        else { d with route := coords, targetIdx := 0, status := "return_charge" }
      | (none, _) => d

/-- The admission step of `assign_to_charger_queue` on one queue:
idempotent for a drone already charging or waiting; occupy a free slot if
`|charging| < capacity`, else join the waiting list. -/
def queueAdmit (did : String) (q : ChargeQueue) : ChargeQueue :=
  if did ∈ q.charging ∨ did ∈ q.queue then q
  else if q.charging.length < q.capacity then { q with charging := q.charging ++ [did] }
  else { q with queue := q.queue ++ [did] }

/-- `assign_to_charger_queue`: base queue when within 20 m of the base,
else the nearest station's queue (created on demand). -/
def assignToChargerQueue (hav : Hav) (s : FleetState) (did : String) : FleetState :=
  match s.drones.lookup did with
  | none => s
  | some d =>
    let baseClose : Bool := match s.base with
      | some b => decide (hav d.pos b < 20)
      | none => false
    if baseClose then { s with baseQueue := queueAdmit did s.baseQueue }
    else
      match nearestStationIndex hav s.stations d.pos with
      | none => s
      | some idx =>
        let key := toString idx
        let sq := (s.stationQueues.lookup key).getD defaultQueue
        { s with stationQueues := dictInsert s.stationQueues key (queueAdmit did sq) }

/-- One charging drone's +4%/tick step of `progress_charging`; reports
whether it reached 100% (and then resumes its stored route or goes idle). -/
def chargeTick (drones : List (String × Drone)) (did : String) :
    List (String × Drone) × Bool :=
  match drones.lookup did with
  | none => (drones, false)
  | some d =>
    let b := min 100 (d.battery + 4)
    if 100 ≤ b then
      let d2 :=
        if d.resumeRoute.isEmpty then { d with battery := b, status := "idle" }
        else { d with battery := b, route := d.resumeRoute, resumeRoute := [],
                      targetIdx := 0, status := "enroute" }
      (drones.map (fun kv => if kv.1 = did then (did, d2) else kv), true)
    else
      (drones.map (fun kv => if kv.1 = did then (did, { d with battery := b }) else kv), false)

/-- The FIFO promotion loop `while |charging| < capacity and queue:`. -/
def promote : List String → List String → Nat → List String × List String
  | c, [], _ => (c, [])
  | c, x :: rest, cap =>
    if c.length < cap then promote (c ++ [x]) rest cap else (c, x :: rest)

/-- `progress_charging` restricted to one queue: charge every listed drone,
drop the finished ones from `charging`, then promote waiters in FIFO
order. -/
def queueProgress (drones : List (String × Drone)) (q : ChargeQueue) :
    List (String × Drone) × ChargeQueue :=
  let step := q.charging.foldl (fun acc did =>
    let r := chargeTick acc.1 did
    (r.1, if r.2 then acc.2 ++ [did] else acc.2)) (drones, ([] : List String))
  let charging2 := step.2.foldl (fun c did => if did ∈ c then c.erase did else c) q.charging
  let pr := promote charging2 q.queue q.capacity
  (step.1, { charging := pr.1, queue := pr.2, capacity := q.capacity })

/-- `progress_charging`: the base queue, then every station queue in
stored order. -/
def progressCharging (s : FleetState) : FleetState :=
  let r1 := queueProgress s.drones s.baseQueue
  let r2 := s.stationQueues.foldl
    (fun (acc : List (String × Drone) × List (String × ChargeQueue)) kv =>
      let r := queueProgress acc.1 kv.2
      (r.1, acc.2 ++ [(kv.1, r.2)])) (r1.1, [])
  { s with drones := r2.1, baseQueue := r1.2, stationQueues := r2.2 }

/-- `mark_order_completed_if_any`: complete the first `assigned` order of
this drone. -/
def markOrderCompleted : List Order → String → List Order
  | [], _ => []
  | o :: rest, did =>
    if o.droneId = some did ∧ o.status = "assigned" then
      { o with status := "completed" } :: rest
    else o :: markOrderCompleted rest did

/-- `can_escape_after`: vacuously true without chargers; else some charger
must be plannable from `point` at 80% battery within `per * 0.8` meters. -/
def canEscapeAfter (planFor : PlanFor) (base : Option Pt) (stations : List Pt)
    (point : Pt) (t : String) : Bool :=
  let cands := chargersOf base stations
  if cands.isEmpty then true
  else cands.any (fun cand =>
    match planFor point cand t 80 with
    | (some c, len) => !c.isEmpty && decide (len ≤ ((perType t * (8/10) : ℚ) : WithTop ℚ))
    | (none, _) => false)

/-- The two legs `plan_via_base_if_needed` computes for one candidate:
current→candidate at the current battery and candidate→destination at a
full charge; `none` when either leg's coordinate list is missing or empty
(Python truthiness of `c1`/`c2`). -/
def legsOf (planFor : PlanFor) (current endp : Pt) (t : String) (battery : ℚ)
    (cand : Pt) : Option ((List Pt × WithTop ℚ) × (List Pt × WithTop ℚ)) :=
  match planFor current cand t battery with
  | (some c1, l1) =>
    if c1.isEmpty then none
    else
      match planFor cand endp t 100 with
      | (some c2, l2) => if c2.isEmpty then none else some ((c1, l1), (c2, l2))
      | (none, _) => none
  | (none, _) => none

/-- Total length of a candidate's two legs (`l1 + l2`). -/
def legTotal (lg : (List Pt × WithTop ℚ) × (List Pt × WithTop ℚ)) : WithTop ℚ :=
  lg.1.2 + lg.2.2

/-- One iteration of the candidate scan: keep the strictly best total
(`best_len` starts at infinity). -/
def viaStep (planFor : PlanFor) (current endp : Pt) (t : String) (battery : ℚ)
    (best : Option (List Pt × WithTop ℚ)) (cand : Pt) :
    Option (List Pt × WithTop ℚ) :=
  match legsOf planFor current endp t battery cand with
  | none => best
  | some lg =>
    if legTotal lg < (match best with | some bl => bl.2 | none => ⊤) then
      some (lg.1.1 ++ lg.2.1, legTotal lg)
    else best

/-- The candidate scan of `plan_via_base_if_needed`: two independent legs
per candidate, keep the strictly best total. -/
def viaCandidateFold (planFor : PlanFor) (current endp : Pt) (t : String)
    (battery : ℚ) (cands : List Pt) : Option (List Pt × WithTop ℚ) :=
  cands.foldl (viaStep planFor current endp t battery) none

/-- `plan_via_base_if_needed`. Note the threshold
`usable_range = per * (battery/100) * 0.9` is computed from the per-type
consumption table `per` (2000/2500/3000), not from the drone's
`battery_range`. -/
def planViaBaseIfNeeded (planFor : PlanFor) (base : Option Pt) (stations : List Pt)
    (current endp : Pt) (t : String) (battery : ℚ) : PlanResult :=
  match base with
  | none => planFor current endp t battery
  | some b =>
    match planFor current endp t battery with
    | (none, _) => (none, 0)
    | (some dcoords, ld) =>
      if dcoords.isEmpty then (none, 0)
      else
        let usable : ℚ := perType t * (battery / 100) * (9/10)
        if decide (ld ≤ ((usable : ℚ) : WithTop ℚ)) &&
           canEscapeAfter planFor (some b) stations endp t then
          (some dcoords, ld)
        else
          match viaCandidateFold planFor current endp t battery ([b] ++ stations) with
          | some best => (some best.1, best.2)
          | none => (some dcoords, ld)

/-- `map_order_to_drone_type`. -/
def mapOrderToDroneType (t : String) : String :=
  if t = "delivery" then "cargo" else if t = "shooting" then "operator" else "cleaner"

/-- `pick_drone_for_order`: nearest idle drone by straight-line distance. -/
def pickDroneForOrder (hav : Hav) (drones : List (String × Drone)) (start : Pt) :
    Option String :=
  (drones.foldl (fun (best : Option String × WithTop ℚ) kv =>
    if kv.2.status = "idle" then
      if ((hav kv.2.pos start : ℚ) : WithTop ℚ) < best.2 then
        (some kv.1, ((hav kv.2.pos start : ℚ) : WithTop ℚ))
      else best
    else best) (none, ⊤)).1

/-- `spawn_drone`: key `drone_{len+1}`, full battery defaults. -/
def spawnDrone (s : FleetState) (t : String) (pos : Pt) (battery : ℚ) :
    FleetState × String :=
  let did := "drone_" ++ toString (s.drones.length + 1)
  let nd : Drone := ⟨pos, t, battery, [], [], 0, "idle", 35, 0, [], 0, 0⟩
  ({ s with drones := dictInsert s.drones did nd }, did)

def invGet (inv : List (String × Int)) (t : String) : Int := (inv.lookup t).getD 0

/-- The type scan of `spawn_drone_from_inventory`. -/
def spawnFromInvGo (s : FleetState) (b : Pt) : List String → FleetState × Option String
  | [] => (s, none)
  | t :: rest =>
    let cnt := invGet s.inventory t
    if 0 < cnt then
      let r := spawnDrone s t b 100
      ({ r.1 with inventory := dictInsert r.1.inventory t (cnt - 1) }, some r.2)
    else spawnFromInvGo s b rest

/-- `spawn_drone_from_inventory`: prefer the requested type, else any
available, decrementing the inventory. -/
def spawnDroneFromInventory (s : FleetState) (prefType : String) :
    FleetState × Option String :=
  match s.base with
  | none => (s, none)
  | some b =>
    spawnFromInvGo s b
      ([prefType] ++ (["cargo", "operator", "cleaner"].filter (fun t => t ≠ prefType)))

/-- The split scan of `apply_midroute_charging`: first index `i ≥ 1` that
is at a charger and is not the final point. -/
def firstChargerSplit (hav : Hav) (base : Option Pt) (stations : List Pt)
    (coords : List Pt) : Option Nat :=
  (List.range' 1 (coords.length - 1)).find? (fun i =>
    decide (i + 1 < coords.length) &&
    (isAtAnyStation hav stations (coords.getD i (0, 0)) ||
     (match base with | some bb => hav (coords.getD i (0, 0)) bb < 20 | none => false)))

/-- `apply_midroute_charging`: split the planned coordinates at the first
mid-route charger into `route` and `resume_route`. -/
def applyMidrouteCharging (hav : Hav) (base : Option Pt) (stations : List Pt)
    (d : Drone) (fullCoords : List Pt) : Drone :=
  if fullCoords.length < 2 then
    { d with route := fullCoords, resumeRoute := [], targetIdx := 0,
             status := if fullCoords.isEmpty then "idle" else "enroute" }
  else
    match firstChargerSplit hav base stations fullCoords with
    | some i =>
      { d with route := fullCoords.take (i + 1), resumeRoute := fullCoords.drop (i + 1),
               targetIdx := 0, status := "enroute" }
    | none =>
      { d with route := fullCoords, resumeRoute := [], targetIdx := 0, status := "enroute" }

/-- Python `int(...)` truncation toward zero on a rational. -/
def intTrunc (q : ℚ) : ℤ := if 0 ≤ q then ⌊q⌋ else ⌈q⌉

/-- The ETA block at the end of the per-drone tick body: remaining distance
along the rest of the route and seconds at the current speed. -/
def recomputeEta (hav : Hav) (speed : ℚ) (d : Drone) : Drone :=
  let remaining : ℚ :=
    if !d.route.isEmpty && decide (d.targetIdx < d.route.length) then
      hav d.pos (d.route.getD d.targetIdx d.pos) +
      (List.range (d.route.length - 1 - d.targetIdx)).foldl
        (fun a j => a + hav (d.route.getD (d.targetIdx + j) d.pos)
                           (d.route.getD (d.targetIdx + j + 1) d.pos)) 0
    else 0
  { d with remainingM := remaining,
           etaS := if 0 < remaining then intTrunc (remaining / max (1/10) speed) else 0 }

/-- The common tail of the motion branches of the per-drone tick body:
link quality, low-battery handling, ETA recomputation. -/
def droneStepTail (hav : Hav) (planFor : PlanFor) (speed : ℚ) (s : FleetState)
    (did : String) (d3 : Drone) : FleetState :=
  let d4 := computeLinkQuality hav s.base s.windMps d3
  let d5 :=
    if d4.battery ≤ 5 then
      maybeRouteToBaseOrStation hav planFor s.base s.stations { d4 with status := "low_battery" }
    else if d4.battery ≤ 20 ∧ (d4.status = "idle" ∨ d4.status = "holding") then
      maybeRouteToBaseOrStation hav planFor s.base s.stations d4
    else d4
  updateDrone s did (recomputeEta hav speed d5)

/-- The loop body of `simulate_step` for one drone id (skipping everything
but `enroute` drones): zone re-check and reroute, motion with arrival /
collision avoidance, battery drain, charger admission, telemetry. -/
def droneStep (hav : Hav) (planFor : PlanFor) (s : FleetState) (did : String) :
    FleetState :=
  match s.drones.lookup did with
  | none => s
  | some d0 =>
    if d0.status ≠ "enroute" then s
    else if d0.route.isEmpty || decide (d0.route.length ≤ d0.targetIdx) then
      -- route exhausted: idle, complete the order, head to a charger if low
      let d1 := { d0 with status := "idle" }
      let s2 := { updateDrone s did d1 with orders := markOrderCompleted s.orders did }
      if d1.battery < 30 then
        updateDrone s2 did (maybeRouteToBaseOrStation hav planFor s2.base s2.stations d1)
      else s2
    else
      let target := d0.route.getD d0.targetIdx d0.pos
      if isPointInAnyZone s.noFlyZones target then
        -- target fell into a zone: replan to the route's end or hold
        let endPt := d0.route.getLastD d0.pos
        match planViaBaseIfNeeded planFor s.base s.stations d0.pos endPt d0.dtype d0.battery with
        | (some coords, _) =>
          if coords.isEmpty then updateDrone s did { d0 with status := "holding" }
          else updateDrone s did { d0 with route := coords, targetIdx := 0 }
        | (none, _) => updateDrone s did { d0 with status := "holding" }
      else
        let speed := max 5 (15 - (3/10) * s.windMps)
        let dist := hav d0.pos target
        if dist < speed then
          -- arrive at the target this tick
          let d1 := { d0 with pos := target, targetIdx := d0.targetIdx + 1 }
          let atCharger : Bool :=
            isAtAnyStation hav s.stations d1.pos ||
            (match s.base with | some b => decide (hav d1.pos b < 20) | none => false)
          if d1.route.length ≤ d1.targetIdx then
            if atCharger then
              let s1 := assignToChargerQueue hav (updateDrone s did d1) did
              let d2 := { d1 with status := "charging" }
              droneStepTail hav planFor speed (updateDrone s1 did d2) did (batteryDrain hav d2 dist)
            else
              let d2 := { d1 with status := "idle" }
              droneStepTail hav planFor speed (updateDrone s did d2) did (batteryDrain hav d2 dist)
          else
            let d2 := { d1 with status := "enroute" }
            droneStepTail hav planFor speed (updateDrone s did d2) did (batteryDrain hav d2 dist)
        else
          -- fractional move with the 8 m collision bubble
          let nextPos := moveTowards d0.pos target (speed / dist)
          let d2 :=
            if willCollide hav s.drones did nextPos then { d0 with status := "avoidance" }
            else { d0 with pos := nextPos }
          droneStepTail hav planFor speed (updateDrone s did d2) did (batteryDrain hav d2 speed)

/-- `simulate_step`: process every drone in dict order, then
`progress_charging`. -/
def simulateStep (hav : Hav) (planFor : PlanFor) (s : FleetState) : FleetState :=
  if !(cityTruthy s) then s
  else progressCharging ((s.drones.map Prod.fst).foldl (droneStep hav planFor) s)

/-- The per-order body of `assign_orders` (processing the order at index
`oidx` of the snapshot taken at loop entry). -/
def assignOrderStep (hav : Hav) (planFor : PlanFor) (s : FleetState) (oidx : Nat) :
    FleetState :=
  match s.orders.get? oidx with
  | none => s
  | some o =>
    let picked := pickDroneForOrder hav s.drones o.start
    let sd : FleetState × String :=
      match picked with
      | some did => (s, did)
      | none =>
        let prefType := mapOrderToDroneType o.otype
        let r := spawnDroneFromInventory s prefType
        match r.2 with
        | some did => (r.1, did)
        | none =>
          let did := "drone_" ++ toString (r.1.drones.length + 1)
          let nd : Drone := ⟨o.start, prefType, o.batteryLevel, [], [], 0, "idle", 35, 0, [], 0, 0⟩
          ({ r.1 with drones := dictInsert r.1.drones did nd }, did)
    let s1 := sd.1
    let did := sd.2
    match s1.drones.lookup did with
    | none => s1
    | some d =>
      match planViaBaseIfNeeded planFor s1.base s1.stations o.start o.endp d.dtype d.battery with
      | (some coords, len) =>
        if coords.isEmpty then s1
        else
          let s2 := updateDrone s1 did (applyMidrouteCharging hav s1.base s1.stations d coords)
          let o2 := { o with status := "assigned", droneId := some did, routeLength := len }
          { s2 with orders := s2.orders.set oidx o2 }
      | (none, _) => s1

/-- `assign_orders`: for every order queued at loop entry, pick or spawn a
drone and plan its route. -/
def assignOrders (hav : Hav) (planFor : PlanFor) (s : FleetState) : FleetState :=
  if !(cityTruthy s) then s
  else
    ((s.orders.enum.filter (fun io => io.2.status = "queued")).map Prod.fst).foldl
      (assignOrderStep hav planFor) s

/-- One `scheduler_loop` iteration (the exposed `tick()`):
`assign_orders` then `simulate_step` (which ends in `progress_charging`). -/
def tick (hav : Hav) (planFor : PlanFor) (s : FleetState) : FleetState :=
  simulateStep hav planFor (assignOrders hav planFor s)

/-! ## Invariants, projections and concrete fixtures -/

/-- The charging-queue invariant of the spec, strengthened with the
waiting-list `Nodup` that makes it inductive: `|charging| ≤ capacity`, no
drone both charging and waiting, no duplicate waiters. -/
def QueueInv (q : ChargeQueue) : Prop :=
  q.charging.length ≤ q.capacity ∧ (∀ x ∈ q.charging, x ∉ q.queue) ∧ q.queue.Nodup

instance : DecidablePred QueueInv := fun q => by
  unfold QueueInv
  infer_instance

/-- Key/status projection of the drone dict. -/
def statusMap (l : List (String × Drone)) : List (String × String) :=
  l.map (fun kv => (kv.1, kv.2.status))

/-- Every drone id occupying a charging slot of some queue (base first, then
stations in stored order). -/
def allChargingIds (s : FleetState) : List String :=
  s.baseQueue.charging ++ (s.stationQueues.map (fun kv => kv.2.charging)).flatten

/-- Trivial instantiations of the external-library parameters, used by
concrete evaluations whose control flow never consults them. -/
def stubOracles : RouteOracles :=
  ⟨id, fun _ => 1, fun _ _ _ => none, fun _ _ _ => none, fun _ _ _ => none,
   fun _ _ _ => true, fun _ _ => []⟩

def zeroHav : Hav := fun _ _ => 0

def nonePlan : PlanFor := fun _ _ _ _ => (none, 0)

/-- C5 counterexample graph: the node closest to the origin is blocked
(`weight = +inf`), a finite-weight node sits farther away. -/
def CG5 : Graph :=
  ⟨[(NodeId.road 0, ⟨some (0, 0), ⊤, "road"⟩),
    (NodeId.road 1, ⟨some (0, 1/200), 1, "road"⟩)], []⟩

/-- C8 counterexample network: one node, but without coordinates. -/
def RN8 : RoadNetwork := ⟨[⟨0, none, none⟩], []⟩

/-- C4 counterexample oracle: every direct leg is 5000 m long, every
escape-check leg (battery 80) is 100 m. The values are realisable by the
real planner on suitably placed points. -/
def planForC4 : PlanFor := fun s e _ b =>
  if b = 80 then (some [s, e], ((100 : ℚ) : WithTop ℚ))
  else (some [s, e], ((5000 : ℚ) : WithTop ℚ))

/-- C4 witness oracle: every leg is 100 m. -/
def planForC4w : PlanFor := fun s e _ _ => (some [s, e], ((100 : ℚ) : WithTop ℚ))

/-- A drone `enroute` toward `(1, 0)` from the origin. -/
def drone7 (battery : ℚ) : Drone :=
  ⟨(0, 0), "cargo", battery, [(1, 0)], [], 0, "enroute", 35, 0, [], 0, 0⟩

/-- A parked drone sitting exactly on the enroute drone's next position. -/
def drone7b : Drone :=
  ⟨(15/111194, 0), "cargo", 100, [], [], 0, "idle", 35, 0, [], 0, 0⟩

/-- C7 distance oracle: `0` on equal points, `111194` otherwise — matching
the real `haversine_m` on the only pairs the trace probes
(`haversine((0,0),(1,0)) ≈ 111194.9 m`; identical points give `0`). -/
def hav7 : Hav := fun a b => if a = b then 0 else 111194

/-- C7 fleet: `d1` enroute with the given battery, `d2` parked on `d1`'s
candidate next position; no base, no stations. -/
def CS7 (battery : ℚ) : FleetState :=
  ⟨some "c", some ⟨[], []⟩, [], [("d1", drone7 battery), ("d2", drone7b)],
   [], 0, none, [], [], [], defaultQueue⟩

/-- C9 counterexample fleet: one drone `charging` at 96% occupying a base
slot, no queued orders, no enroute drones. -/
def CS9 : FleetState :=
  ⟨some "c", some ⟨[], []⟩,
   [⟨"order_1", "delivery", (0, 0), (1, 1), 100, "completed", some "d1", 0⟩],
   [("d1", ⟨(0, 0), "cargo", 96, [], [], 0, "charging", 35, 0, [], 0, 0⟩)],
   [], 0, some (0, 0), [], [], [], ⟨["d1"], [], 2⟩⟩

/-- C9 witness fleet: like `CS9` but the charging drone is at 90%, so no
charging completes this tick. -/
def CS9w : FleetState :=
  ⟨some "c", some ⟨[], []⟩,
   [⟨"order_1", "delivery", (0, 0), (1, 1), 100, "completed", some "d1", 0⟩,
    ⟨"order_2", "work", (0, 0), (1, 1), 100, "cancelled", none, 0⟩],
   [("d1", ⟨(0, 0), "cargo", 90, [], [], 0, "charging", 35, 0, [], 0, 0⟩),
    ("d2", ⟨(2, 2), "cleaner", 50, [], [], 0, "holding", 35, 0, [], 0, 0⟩)],
   [], 0, some (0, 0), [], [], [], ⟨["d1"], [], 2⟩⟩

/-- C3 witness oracle: A* finds the direct 2-node path of the
500 m graph, the other strategies raise. -/
def oracles3 : RouteOracles :=
  ⟨id, fun _ => 1, fun _ _ _ => some [NodeId.road 0, NodeId.road 1],
   fun _ _ _ => none, fun _ _ _ => none, fun _ _ _ => true, fun _ _ => []⟩

/-- Two road nodes joined by a 500 m edge (spec scenario A). -/
def CG3 : Graph :=
  ⟨[(NodeId.road 0, ⟨some (0, 0), 1, "road"⟩),
    (NodeId.road 1, ⟨some (0, 1/200), 1, "road"⟩)],
   [(NodeId.road 0, NodeId.road 1, ⟨(500 : ℚ), "road"⟩)]⟩

end GPSDron

namespace GPSDron

/-! ## Theorems -/

section Claims

/-! ### C10: unknown drone types fall back to the cargo parameters -/

/-- C10. For every drone-type string outside `{cargo, operator, cleaner}`,
the graph builder's parameter lookup, the route planner's range lookup and
the scheduler's drain table all return the cargo values (weight 2.0,
battery range 20000 m, 1% per 2000 m); each lookup is a total function, so
an unknown type never raises. -/
theorem c10_unknown_type_falls_back_to_cargo (t : String)
    (h : t ≠ "cargo" ∧ t ≠ "operator" ∧ t ≠ "cleaner") :
    gsGetDroneParams t = gsGetDroneParams "cargo" ∧
    gsGetDroneParams t = ⟨2, 200, 20000⟩ ∧
    rsGetDroneParamsRange t = 20000 ∧
    perType t = 2000 := by
  obtain ⟨h1, h2, h3⟩ := h
  refine ⟨?_, ?_, ?_, ?_⟩ <;>
    simp [gsGetDroneParams, rsGetDroneParamsRange, perType, h1, h2, h3]

/-- C10 witness at the concrete unknown type `"quadro"`. -/
theorem c10_unknown_type_witness :
    ("quadro" ≠ "cargo" ∧ "quadro" ≠ "operator" ∧ "quadro" ≠ "cleaner") ∧
    (gsGetDroneParams "quadro" = gsGetDroneParams "cargo" ∧
     gsGetDroneParams "quadro" = ⟨2, 200, 20000⟩ ∧
     rsGetDroneParamsRange "quadro" = 20000 ∧
     perType "quadro" = 2000) :=
  ⟨by decide, c10_unknown_type_falls_back_to_cargo "quadro" (by decide)⟩

/-! ### C6: charging queue invariant -/

theorem promote_inv (w : List String) :
    ∀ (c : List String) (cap : Nat), c.length ≤ cap → (∀ x ∈ c, x ∉ w) → w.Nodup →
    (promote c w cap).1.length ≤ cap ∧
    (∀ x ∈ (promote c w cap).1, x ∉ (promote c w cap).2) ∧
    (promote c w cap).2.Nodup := by
  induction w with
  | nil =>
    intro c cap h1 _ _
    exact ⟨h1, by simp [promote], by simp [promote]⟩
  | cons x rest ih =>
    intro c cap h1 h2 h3
    by_cases hlt : c.length < cap
    · simp only [promote, if_pos hlt]
      refine ih (c ++ [x]) cap (by simpa using hlt) ?_ (List.Nodup.of_cons h3)
      intro y hy
      rcases List.mem_append.1 hy with hy | hy
      · exact fun hr => h2 y hy (List.mem_cons_of_mem _ hr)
      · rcases List.mem_singleton.1 hy with rfl
        exact (List.nodup_cons.1 h3).1
    · simp only [promote, if_neg hlt]
      exact ⟨h1, h2, h3⟩

theorem eraseFold_sublist (done : List String) :
    ∀ c : List String,
      List.Sublist (done.foldl (fun c did => if did ∈ c then c.erase did else c) c) c := by
  induction done with
  | nil => intro c; exact List.Sublist.refl c
  | cons d ds ih =>
    intro c
    refine List.Sublist.trans (ih _) ?_
    by_cases hd : d ∈ c
    · simpa [hd] using List.erase_sublist d c
    · simp [hd]

theorem inv_of_promote (c2 w : List String) (cap : Nat) (h1 : c2.length ≤ cap)
    (h2 : ∀ x ∈ c2, x ∉ w) (h3 : w.Nodup) :
    QueueInv ⟨(promote c2 w cap).1, (promote c2 w cap).2, cap⟩ := by
  obtain ⟨a, b, c⟩ := promote_inv w c2 cap h1 h2 h3
  exact ⟨a, b, c⟩

theorem queueProgress_inv (drones : List (String × Drone)) (q : ChargeQueue)
    (h : QueueInv q) : QueueInv (queueProgress drones q).2 := by
  obtain ⟨hlen, hdisj, hnd⟩ := h
  have hsub := eraseFold_sublist
    ((q.charging.foldl (fun acc did =>
      ((chargeTick acc.1 did).1,
       if (chargeTick acc.1 did).2 then acc.2 ++ [did] else acc.2))
      (drones, ([] : List String))).2) q.charging
  exact inv_of_promote _ q.queue q.capacity (le_trans hsub.length_le hlen)
    (fun x hx => hdisj x (hsub.subset hx)) hnd

theorem queueAdmit_inv (did : String) (q : ChargeQueue) (h : QueueInv q) :
    QueueInv (queueAdmit did q) := by
  obtain ⟨hlen, hdisj, hnd⟩ := h
  by_cases hmem : did ∈ q.charging ∨ did ∈ q.queue
  · simpa only [queueAdmit, if_pos hmem] using ⟨hlen, hdisj, hnd⟩
  · have hc : did ∉ q.charging := fun hx => hmem (Or.inl hx)
    have hq : did ∉ q.queue := fun hx => hmem (Or.inr hx)
    by_cases hcap : q.charging.length < q.capacity
    · simp only [queueAdmit, if_neg hmem, if_pos hcap]
      refine ⟨by simpa using hcap, ?_, hnd⟩
      intro x hx
      rcases List.mem_append.1 hx with hx | hx
      · exact hdisj x hx
      · rcases List.mem_singleton.1 hx with rfl
        exact hq
    · simp only [queueAdmit, if_neg hmem, if_neg hcap]
      refine ⟨hlen, ?_, ?_⟩
      · intro x hx hxq
        rcases List.mem_append.1 hxq with hxq | hxq
        · exact hdisj x hx hxq
        · rcases List.mem_singleton.1 hxq with rfl
          exact hc hx
      · refine List.Nodup.append hnd (List.nodup_singleton did) ?_
        intro x hx hx2
        rw [List.mem_singleton] at hx2
        subst hx2
        exact hq hx

/-- C6. The charging-queue invariant (`|charging| ≤ capacity`, no drone id
both charging and waiting) is preserved by charging admission
(`assign_to_charger_queue`'s queue update) and by the per-tick progression
(`progress_charging`'s queue update), and admission is idempotent for a
drone already charging or waiting. -/
theorem c6_charging_queue_invariant (q : ChargeQueue)
    (drones : List (String × Drone)) (did : String) (h : QueueInv q) :
    QueueInv (queueAdmit did q) ∧
    QueueInv (queueProgress drones q).2 ∧
    ((did ∈ q.charging ∨ did ∈ q.queue) → queueAdmit did q = q) := by
  refine ⟨queueAdmit_inv did q h, queueProgress_inv drones q h, ?_⟩
  intro hmem
  simp only [queueAdmit, if_pos hmem]

/-- C6 witness: invariant state with one charging and one waiting drone,
admitting a third. -/
theorem c6_charging_queue_witness :
    QueueInv ⟨["a"], ["b"], 1⟩ ∧
    (QueueInv (queueAdmit "c" ⟨["a"], ["b"], 1⟩) ∧
     QueueInv (queueProgress [] ⟨["a"], ["b"], 1⟩).2 ∧
     (("c" ∈ (["a"] : List String) ∨ "c" ∈ (["b"] : List String)) →
        queueAdmit "c" ⟨["a"], ["b"], 1⟩ = ⟨["a"], ["b"], 1⟩)) :=
  ⟨by decide, c6_charging_queue_invariant ⟨["a"], ["b"], 1⟩ [] "c" (by decide)⟩

/-! ### C5: nearest-node search and blocked nodes -/

theorem selNearFold_some (p : Pt) :
    ∀ (l : List (NodeId × Pt)) (a r : NodeId × Pt),
      l.foldl (selNearStep p) (some a) = some r →
      (r = a ∨ r ∈ l) ∧ sqDist p r.2 ≤ sqDist p a.2 ∧
      ∀ m ∈ l, sqDist p r.2 ≤ sqDist p m.2 := by
  intro l
  induction l with
  | nil =>
    intro a r h
    simp only [List.foldl_nil, Option.some.injEq] at h
    subst h
    exact ⟨Or.inl rfl, le_refl _, by simp⟩
  | cons x xs ih =>
    intro a r h
    simp only [List.foldl_cons] at h
    by_cases hlt : sqDist p x.2 < sqDist p a.2
    · rw [selNearStep, if_pos hlt] at h
      obtain ⟨hmem, hle, hall⟩ := ih x r h
      refine ⟨?_, le_trans hle (le_of_lt hlt), ?_⟩
      · rcases hmem with rfl | hmem
        · exact Or.inr (List.mem_cons_self _ _)
        · exact Or.inr (List.mem_cons_of_mem _ hmem)
      · intro m hm
        rcases List.mem_cons.1 hm with rfl | hm
        · exact hle
        · exact hall m hm
    · rw [selNearStep, if_neg hlt] at h
      obtain ⟨hmem, hle, hall⟩ := ih a r h
      refine ⟨?_, hle, ?_⟩
      · rcases hmem with rfl | hmem
        · exact Or.inl rfl
        · exact Or.inr (List.mem_cons_of_mem _ hmem)
      · intro m hm
        rcases List.mem_cons.1 hm with rfl | hm
        · exact le_trans hle (le_of_not_lt hlt)
        · exact hall m hm

theorem selNearFold_isSome (p : Pt) :
    ∀ (l : List (NodeId × Pt)) (a : NodeId × Pt),
      (l.foldl (selNearStep p) (some a)).isSome := by
  intro l
  induction l with
  | nil => intro a; rfl
  | cons x xs ih =>
    intro a
    simp only [List.foldl_cons, selNearStep]
    by_cases hlt : sqDist p x.2 < sqDist p a.2
    · rw [if_pos hlt]; exact ih x
    · rw [if_neg hlt]; exact ih a

theorem c5box : nodesWithinBox CG5 (0, 0) (1/100) =
    [(NodeId.road 0, ((0 : ℚ), (0 : ℚ))), (NodeId.road 1, ((0 : ℚ), 1/200))] := by
  norm_num [nodesWithinBox, posNodes, CG5, absQ, List.filter, List.filterMap]

theorem c5ntc : nodesToCheck CG5 (0, 0) =
    [(NodeId.road 0, ((0 : ℚ), (0 : ℚ))), (NodeId.road 1, ((0 : ℚ), 1/200))] := by
  rw [nodesToCheck, c5box]
  rfl

theorem c5find : findNearestNode CG5 (0, 0) = some (NodeId.road 0) := by
  rw [findNearestNode, c5ntc, selectNearest]
  norm_num [selNearStep, sqDist]

/-- C5 counterexample. `_find_nearest_node` applies no weight filter: on a
graph whose closest node to the query point is blocked (`weight = +inf`)
while a finite-weight node exists, it returns the blocked node — against
the claim that the search "never returns a node marked impassable". -/
theorem c5_nearest_node_counterexample :
    findNearestNode CG5 (0, 0) = some (NodeId.road 0) ∧
    (CG5.findNode (NodeId.road 0)).map NodeData.weight = some ⊤ ∧
    ∃ nd ∈ CG5.nodes, nd.2.weight ≠ ⊤ := by
  refine ⟨c5find, rfl, ?_⟩
  refine ⟨(NodeId.road 1, ⟨some (0, 1/200), 1, "road"⟩), ?_, ?_⟩
  · simp [CG5]
  · exact WithTop.one_ne_top

/-- C5 amended. The nearest-node search returns the node of minimal
distance among the graduated candidate set `nodesToCheck` (1 km box, then
10 km box, then a capped full scan), irrespective of node weights — blocked
nodes included — and returns some node whenever that candidate set is
nonempty. Distances are compared on squares (`sqrt` is strictly
monotone). -/
theorem c5_nearest_node_minimizes (G : Graph) (p : Pt) :
    (∀ n, findNearestNode G p = some n →
      ∃ pn, (n, pn) ∈ nodesToCheck G p ∧
        ∀ m ∈ nodesToCheck G p, sqDist p pn ≤ sqDist p m.2) ∧
    (nodesToCheck G p ≠ [] → (findNearestNode G p).isSome) := by
  constructor
  · intro n hn
    unfold findNearestNode selectNearest at hn
    rcases hcand : nodesToCheck G p with _ | ⟨x, xs⟩
    · rw [hcand] at hn
      exact Option.noConfusion hn
    · rw [hcand] at hn
      simp only [List.foldl_cons] at hn
      have hstep : selNearStep p none x = some x := rfl
      rw [hstep] at hn
      rcases hres : xs.foldl (selNearStep p) (some x) with _ | r
      · rw [hres] at hn
        exact Option.noConfusion hn
      · rw [hres] at hn
        have hn2 : r.1 = n := Option.some.inj hn
        obtain ⟨hmem, hle, hall⟩ := selNearFold_some p xs x r hres
        refine ⟨r.2, ?_, ?_⟩
        · have hmem2 : r ∈ x :: xs := by
            rcases hmem with rfl | hmem
            · exact List.mem_cons_self _ _
            · exact List.mem_cons_of_mem _ hmem
          rw [← hn2]
          simpa using hmem2
        · intro m hm
          rcases List.mem_cons.1 hm with rfl | hm
          · exact hle
          · exact hall m hm
  · intro hne
    unfold findNearestNode selectNearest
    rcases hcand : nodesToCheck G p with _ | ⟨x, xs⟩
    · exact absurd hcand hne
    · simp only [List.foldl_cons]
      have hstep : selNearStep p none x = some x := rfl
      rw [hstep]
      have h2 := selNearFold_isSome p xs x
      rcases hres : xs.foldl (selNearStep p) (some x) with _ | r
      · rw [hres] at h2
        exact Bool.noConfusion h2
      · rfl

/-- C5 witness: on the counterexample graph the returned node `road 0`
indeed minimises the distance over the candidate set. -/
theorem c5_nearest_node_witness :
    ∃ pn, (NodeId.road 0, pn) ∈ nodesToCheck CG5 (0, 0) ∧
      ∀ m ∈ nodesToCheck CG5 (0, 0), sqDist (0, 0) pn ≤ sqDist (0, 0) m.2 :=
  (c5_nearest_node_minimizes CG5 (0, 0)).1 (NodeId.road 0) c5find

/-! ### C8: empty-network error of the graph builder -/

theorem addNode_nodes_length (G : Graph) (k : NodeId) (d : NodeData) :
    G.nodes.length ≤ (G.addNode k d).nodes.length := by
  unfold Graph.addNode
  split
  · simp
  · simp

theorem ensureNode_nodes_length (G : Graph) (k : NodeId) :
    G.nodes.length ≤ (G.ensureNode k).nodes.length := by
  unfold Graph.ensureNode
  split
  · exact le_refl _
  · simp

theorem addEdge_nodes (G : Graph) (u v : NodeId) (d : EdgeData) :
    (G.addEdge u v d).nodes = ((G.ensureNode u).ensureNode v).nodes := by
  unfold Graph.addEdge
  dsimp only
  split
  · rfl
  · rfl

theorem convertEdgeStep_nodes_length (O : RouteOracles) (g : Graph) (e : OxEdge) :
    g.nodes.length ≤ (convertEdgeStep O g e).nodes.length := by
  unfold convertEdgeStep
  split
  · rw [addEdge_nodes]
    exact le_trans (ensureNode_nodes_length g _)
      (ensureNode_nodes_length (g.ensureNode _) _)
  · exact le_refl _

theorem edgesFold_nodes_length (O : RouteOracles) (es : List OxEdge) :
    ∀ g : Graph, g.nodes.length ≤ (es.foldl (convertEdgeStep O) g).nodes.length := by
  induction es with
  | nil => intro g; exact le_refl _
  | cons e es ih =>
    intro g
    exact le_trans (convertEdgeStep_nodes_length O g e) (ih _)

theorem nodesFold_all_none (ns : List OxNode)
    (h : ∀ n ∈ ns, n.x = none ∨ n.y = none) :
    ∀ g : Graph, ns.foldl convertNodeStep g = g := by
  induction ns with
  | nil => intro g; rfl
  | cons n ns ih =>
    intro g
    have hstep : convertNodeStep g n = g := by
      rcases h n (List.mem_cons_self _ _) with hx | hy
      · unfold convertNodeStep
        rw [hx]
      · unfold convertNodeStep
        rw [hy]
        rcases n.x with _ | xv <;> rfl
    rw [List.foldl_cons, hstep]
    exact ih (fun m hm => h m (List.mem_cons_of_mem _ hm)) g

theorem addNode_nodes_ne_nil (G : Graph) (k : NodeId) (d : NodeData) :
    (G.addNode k d).nodes ≠ [] := by
  unfold Graph.addNode
  split
  · rename_i hcont
    intro hemp
    have hmap : G.nodes = [] := by
      have : (G.nodes.map (fun nd => if nd.1 == k then (k, d) else nd)) = [] := hemp
      exact List.map_eq_nil_iff.1 this
    unfold Graph.containsNode at hcont
    rw [hmap] at hcont
    exact Bool.noConfusion hcont
  · simp

theorem convertNodeStep_nodes_ne_nil (g : Graph) (n : OxNode)
    (hg : g.nodes ≠ []) : (convertNodeStep g n).nodes ≠ [] := by
  rcases hx : n.x with _ | xv
  · unfold convertNodeStep
    rw [hx]
    exact hg
  · rcases hy : n.y with _ | yv
    · unfold convertNodeStep
      rw [hx, hy]
      exact hg
    · unfold convertNodeStep
      rw [hx, hy]
      exact addNode_nodes_ne_nil g _ _

theorem nodesFold_ne_nil (ns : List OxNode) :
    ∀ g : Graph, g.nodes ≠ [] → (ns.foldl convertNodeStep g).nodes ≠ [] := by
  induction ns with
  | nil => intro g hg; exact hg
  | cons n ns ih =>
    intro g hg
    rw [List.foldl_cons]
    exact ih _ (convertNodeStep_nodes_ne_nil g n hg)

theorem nodesFold_nonempty (ns : List OxNode) :
    ∀ g : Graph, (∃ n ∈ ns, n.x.isSome ∧ n.y.isSome) →
      (ns.foldl convertNodeStep g).nodes ≠ [] := by
  induction ns with
  | nil =>
    intro g h
    obtain ⟨n, hn, _⟩ := h
    exact absurd hn (List.not_mem_nil n)
  | cons n ns ih =>
    intro g h
    rw [List.foldl_cons]
    obtain ⟨m, hm, hmx, hmy⟩ := h
    rcases List.mem_cons.1 hm with rfl | hm
    · refine nodesFold_ne_nil ns _ ?_
      rcases hx : m.x with _ | xv
      · rw [hx] at hmx; exact Bool.noConfusion hmx
      · rcases hy : m.y with _ | yv
        · rw [hy] at hmy; exact Bool.noConfusion hmy
        · unfold convertNodeStep
          rw [hx, hy]
          exact addNode_nodes_ne_nil g _ _
    · exact ih _ ⟨m, hm, hmx, hmy⟩

theorem edgesFold_empty_nodes (O : RouteOracles) (es : List OxEdge) :
    ∀ g : Graph, g.nodes = [] → es.foldl (convertEdgeStep O) g = g := by
  induction es with
  | nil => intro g _; rfl
  | cons e es ih =>
    intro g hg
    have hstep : convertEdgeStep O g e = g := by
      unfold convertEdgeStep
      have : g.containsNode (NodeId.road e.u) = false := by
        unfold Graph.containsNode
        rw [hg]
        rfl
      rw [this]
      rfl
    rw [List.foldl_cons, hstep]
    exact ih g hg

/-- C8 amended. `build_city_graph` raises its empty-network error exactly
when no input road node carries both coordinates — not exactly when the
input network has zero nodes: nodes without `x`/`y` are dropped by the
conversion before the emptiness check. -/
theorem c8_empty_network_error_iff (O : RouteOracles) (rn : RoadNetwork)
    (zones : List Zone) :
    (∃ msg, buildCityGraph O rn zones = Except.error msg) ↔
      (∀ n ∈ rn.nodes, n.x = none ∨ n.y = none) := by
  constructor
  · rintro ⟨msg, hmsg⟩
    by_contra hnot
    push_neg at hnot
    obtain ⟨n, hn, hx, hy⟩ := hnot
    have hxs : n.x.isSome ∧ n.y.isSome := by
      constructor
      · rcases hv : n.x with _ | v
        · exact absurd hv hx
        · rfl
      · rcases hv : n.y with _ | v
        · exact absurd hv hy
        · rfl
    have hne : (convertOxGraphToNx O rn).nodes ≠ [] := by
      unfold convertOxGraphToNx
      have h1 := nodesFold_nonempty rn.nodes (⟨[], []⟩ : Graph) ⟨n, hn, hxs⟩
      have h2 := edgesFold_nodes_length O rn.edges
        (rn.nodes.foldl convertNodeStep (⟨[], []⟩ : Graph))
      intro hemp
      rw [hemp] at h2
      simp only [List.length_nil, Nat.le_zero, List.length_eq_zero] at h2
      exact h1 h2
    unfold buildCityGraph at hmsg
    rw [if_neg ?_] at hmsg
    · exact Except.noConfusion hmsg
    · simp only [beq_iff_eq, List.length_eq_zero]
      exact hne
  · intro h
    refine ⟨"empty road graph", ?_⟩
    have hconv : convertOxGraphToNx O rn = (⟨[], []⟩ : Graph) := by
      unfold convertOxGraphToNx
      rw [nodesFold_all_none rn.nodes h]
      exact edgesFold_empty_nodes O rn.edges _ rfl
    unfold buildCityGraph
    rw [hconv]
    rfl

/-- C8 counterexample. A road network with one node (but no coordinates)
still triggers the empty-network error, although the claim promises no
such error for any network with at least one node. -/
theorem c8_nonempty_network_errors :
    RN8.nodes.length = 1 ∧
    buildCityGraph stubOracles RN8 [] = Except.error "empty road graph" :=
  ⟨rfl, rfl⟩

/-- C8 witness: the amended equivalence applied to the coordinate-free
one-node network. -/
theorem c8_empty_network_witness :
    (∀ n ∈ RN8.nodes, n.x = none ∨ n.y = none) ∧
    ∃ msg, buildCityGraph stubOracles RN8 [] = Except.error msg :=
  ⟨by decide, (c8_empty_network_error_iff stubOracles RN8 []).mpr (by decide)⟩

/-! ### C4: via-base planning decision -/

theorem viaFold_go (pf : PlanFor) (cur endp : Pt) (t : String) (b : ℚ)
    (cands : List Pt) :
    ∀ acc,
      (cands.foldl (viaStep pf cur endp t b) acc = none →
        acc = none ∧ ∀ cand ∈ cands, ∀ lg,
          legsOf pf cur endp t b cand = some lg → legTotal lg = ⊤) ∧
      (∀ res, cands.foldl (viaStep pf cur endp t b) acc = some res →
        (acc = some res ∨ ∃ cand ∈ cands, ∃ lg,
            legsOf pf cur endp t b cand = some lg ∧
            res = (lg.1.1 ++ lg.2.1, legTotal lg)) ∧
        (∀ bl, acc = some bl → res.2 ≤ bl.2) ∧
        (∀ cand ∈ cands, ∀ lg, legsOf pf cur endp t b cand = some lg →
          res.2 ≤ legTotal lg)) := by
  induction cands with
  | nil =>
    intro acc
    constructor
    · intro h
      exact ⟨h, by simp⟩
    · intro res h
      simp only [List.foldl_nil] at h
      refine ⟨Or.inl h, ?_, by simp⟩
      intro bl hbl
      rw [h] at hbl
      rw [Option.some.inj hbl]
  | cons cand cs ih =>
    intro acc
    rw [List.foldl_cons]
    rcases hleg : legsOf pf cur endp t b cand with _ | lg
    · -- infeasible candidate: the accumulator is unchanged
      have hstep : viaStep pf cur endp t b acc cand = acc := by
        unfold viaStep
        rw [hleg]
      rw [hstep]
      constructor
      · intro h
        obtain ⟨ha, hrest⟩ := (ih acc).1 h
        refine ⟨ha, ?_⟩
        intro c hc lg2 hlg2
        rcases List.mem_cons.1 hc with rfl | hc
        · rw [hleg] at hlg2; exact Option.noConfusion hlg2
        · exact hrest c hc lg2 hlg2
      · intro res h
        obtain ⟨hmem, hacc, hall⟩ := (ih acc).2 res h
        refine ⟨?_, hacc, ?_⟩
        · rcases hmem with hmem | ⟨c, hc, lg2, h1, h2⟩
          · exact Or.inl hmem
          · exact Or.inr ⟨c, List.mem_cons_of_mem _ hc, lg2, h1, h2⟩
        · intro c hc lg2 hlg2
          rcases List.mem_cons.1 hc with rfl | hc
          · rw [hleg] at hlg2; exact Option.noConfusion hlg2
          · exact hall c hc lg2 hlg2
    · by_cases hlt : legTotal lg < (match acc with | some bl => bl.2 | none => ⊤)
      · -- the candidate improves the best total
        have hstep : viaStep pf cur endp t b acc cand =
            some (lg.1.1 ++ lg.2.1, legTotal lg) := by
          unfold viaStep
          rw [hleg]
          exact if_pos hlt
        rw [hstep]
        constructor
        · intro h
          obtain ⟨ha, _⟩ := (ih _).1 h
          exact Option.noConfusion ha
        · intro res h
          obtain ⟨hmem, hacc, hall⟩ := (ih _).2 res h
          have hres2 : res.2 ≤ legTotal lg := hacc _ rfl
          refine ⟨?_, ?_, ?_⟩
          · rcases hmem with hmem | ⟨c, hc, lg2, h1, h2⟩
            · exact Or.inr ⟨cand, List.mem_cons_self _ _, lg, hleg, (Option.some.inj hmem).symm⟩
            · exact Or.inr ⟨c, List.mem_cons_of_mem _ hc, lg2, h1, h2⟩
          · intro bl hbl
            rw [hbl] at hlt
            exact le_trans hres2 (le_of_lt hlt)
          · intro c hc lg2 hlg2
            rcases List.mem_cons.1 hc with rfl | hc
            · rw [hleg] at hlg2
              rw [← Option.some.inj hlg2]
              exact hres2
            · exact hall c hc lg2 hlg2
      · -- the candidate does not improve the best total
        have hstep : viaStep pf cur endp t b acc cand = acc := by
          unfold viaStep
          rw [hleg]
          exact if_neg hlt
        rw [hstep]
        constructor
        · intro h
          obtain ⟨ha, hrest⟩ := (ih acc).1 h
          refine ⟨ha, ?_⟩
          intro c hc lg2 hlg2
          rcases List.mem_cons.1 hc with rfl | hc
          · rw [hleg] at hlg2
            rw [← Option.some.inj hlg2]
            rw [ha] at hlt
            exact top_le_iff.1 (le_of_not_lt hlt)
          · exact hrest c hc lg2 hlg2
        · intro res h
          obtain ⟨hmem, hacc, hall⟩ := (ih acc).2 res h
          refine ⟨?_, hacc, ?_⟩
          · rcases hmem with hmem | ⟨c, hc, lg2, h1, h2⟩
            · exact Or.inl hmem
            · exact Or.inr ⟨c, List.mem_cons_of_mem _ hc, lg2, h1, h2⟩
          · intro c hc lg2 hlg2
            rcases List.mem_cons.1 hc with rfl | hc
            · rw [hleg] at hlg2
              rw [← Option.some.inj hlg2]
              rcases hacccase : acc with _ | bl
              · rw [hacccase] at hlt
                exact le_trans le_top (le_of_not_lt hlt)
              · rw [hacccase] at hlt
                have h1 := hacc bl hacccase
                exact le_trans h1 (le_of_not_lt hlt)
            · exact hall c hc lg2 hlg2

theorem viaFold_none_of_top (pf : PlanFor) (cur endp : Pt) (t : String) (b : ℚ)
    (cands : List Pt)
    (h : ∀ cand ∈ cands, ∀ lg, legsOf pf cur endp t b cand = some lg →
      legTotal lg = ⊤) :
    viaCandidateFold pf cur endp t b cands = none := by
  unfold viaCandidateFold
  induction cands with
  | nil => rfl
  | cons cand cs ih =>
    rw [List.foldl_cons]
    have hstep : viaStep pf cur endp t b none cand = none := by
      unfold viaStep
      rcases hleg : legsOf pf cur endp t b cand with _ | lg
      · rfl
      · have htop := h cand (List.mem_cons_self _ _) lg hleg
        exact if_neg (by rw [htop]; exact lt_irrefl ⊤)
    rw [hstep]
    exact ih (fun c hc lg hlg => h c (List.mem_cons_of_mem _ hc) lg hlg)

theorem planViaBase_direct_fail (pf : PlanFor) (b : Pt) (stations : List Pt)
    (cur endp : Pt) (t : String) (battery : ℚ) (ld : WithTop ℚ)
    (hd : pf cur endp t battery = (none, ld)) :
    planViaBaseIfNeeded pf (some b) stations cur endp t battery = (none, 0) := by
  unfold planViaBaseIfNeeded
  rw [hd]

theorem planViaBase_direct_empty (pf : PlanFor) (b : Pt) (stations : List Pt)
    (cur endp : Pt) (t : String) (battery : ℚ) (dc : List Pt) (ld : WithTop ℚ)
    (hd : pf cur endp t battery = (some dc, ld)) (hemp : dc.isEmpty = true) :
    planViaBaseIfNeeded pf (some b) stations cur endp t battery = (none, 0) := by
  unfold planViaBaseIfNeeded
  rw [hd]
  simp only [hemp]
  rw [if_pos trivial]

theorem planViaBase_commit (pf : PlanFor) (b : Pt) (stations : List Pt)
    (cur endp : Pt) (t : String) (battery : ℚ) (dc : List Pt) (ld : WithTop ℚ)
    (hd : pf cur endp t battery = (some dc, ld)) (hemp : dc.isEmpty = false)
    (hcond : (decide (ld ≤ ((perType t * (battery / 100) * (9/10) : ℚ) : WithTop ℚ)) &&
        canEscapeAfter pf (some b) stations endp t) = true) :
    planViaBaseIfNeeded pf (some b) stations cur endp t battery = (some dc, ld) := by
  unfold planViaBaseIfNeeded
  rw [hd]
  simp only [hemp]
  rw [if_neg Bool.false_ne_true, hcond, if_pos rfl]

theorem planViaBase_else (pf : PlanFor) (b : Pt) (stations : List Pt)
    (cur endp : Pt) (t : String) (battery : ℚ) (dc : List Pt) (ld : WithTop ℚ)
    (hd : pf cur endp t battery = (some dc, ld)) (hemp : dc.isEmpty = false)
    (hcond : (decide (ld ≤ ((perType t * (battery / 100) * (9/10) : ℚ) : WithTop ℚ)) &&
        canEscapeAfter pf (some b) stations endp t) = false) :
    planViaBaseIfNeeded pf (some b) stations cur endp t battery =
      (match viaCandidateFold pf cur endp t battery ([b] ++ stations) with
       | some best => (some best.1, best.2)
       | none => (some dc, ld)) := by
  unfold planViaBaseIfNeeded
  rw [hd]
  simp only [hemp]
  rw [if_neg Bool.false_ne_true, hcond, if_neg Bool.false_ne_true]

/-- C4 amended. With a base configured, `plan_via_base_if_needed`:
fails when the direct plan fails; commits to the direct route exactly when
the direct length is within `per-type-consumption × battery/100 × 0.9`
meters (2000/2500/3000 m per type — not `battery_range`) AND the escape
check at the destination succeeds; otherwise scans every charging
candidate (base first, then stations in order) with legs
current→candidate at the current battery and candidate→destination at
full charge, returning the candidate minimising total leg length, and
falling back to the direct route when no candidate has two plannable legs
of finite total. -/
theorem c4_via_base_characterization (pf : PlanFor) (b : Pt) (stations : List Pt)
    (cur endp : Pt) (t : String) (battery : ℚ) :
    (∀ ld, pf cur endp t battery = (none, ld) →
      planViaBaseIfNeeded pf (some b) stations cur endp t battery = (none, 0)) ∧
    (∀ dc ld, pf cur endp t battery = (some dc, ld) → dc.isEmpty = true →
      planViaBaseIfNeeded pf (some b) stations cur endp t battery = (none, 0)) ∧
    (∀ dc ld, pf cur endp t battery = (some dc, ld) → dc.isEmpty = false →
      ((decide (ld ≤ ((perType t * (battery / 100) * (9/10) : ℚ) : WithTop ℚ)) &&
          canEscapeAfter pf (some b) stations endp t) = true →
        planViaBaseIfNeeded pf (some b) stations cur endp t battery = (some dc, ld)) ∧
      ((decide (ld ≤ ((perType t * (battery / 100) * (9/10) : ℚ) : WithTop ℚ)) &&
          canEscapeAfter pf (some b) stations endp t) = false →
        ((∀ cand ∈ [b] ++ stations, ∀ lg,
            legsOf pf cur endp t battery cand = some lg → legTotal lg = ⊤) →
          planViaBaseIfNeeded pf (some b) stations cur endp t battery = (some dc, ld)) ∧
        ((∃ cand ∈ [b] ++ stations, ∃ lg,
            legsOf pf cur endp t battery cand = some lg ∧ legTotal lg ≠ ⊤) →
          ∃ cand ∈ [b] ++ stations, ∃ lg,
            legsOf pf cur endp t battery cand = some lg ∧
            planViaBaseIfNeeded pf (some b) stations cur endp t battery =
              (some (lg.1.1 ++ lg.2.1), legTotal lg) ∧
            ∀ cand2 ∈ [b] ++ stations, ∀ lg2,
              legsOf pf cur endp t battery cand2 = some lg2 →
                legTotal lg ≤ legTotal lg2))) := by
  refine ⟨?_, ?_, ?_⟩
  · intro ld hld
    exact planViaBase_direct_fail pf b stations cur endp t battery ld hld
  · intro dc ld hd hemp
    exact planViaBase_direct_empty pf b stations cur endp t battery dc ld hd hemp
  · intro dc ld hd hemp
    constructor
    · intro hcond
      exact planViaBase_commit pf b stations cur endp t battery dc ld hd hemp hcond
    · intro hcond
      constructor
      · intro htop
        rw [planViaBase_else pf b stations cur endp t battery dc ld hd hemp hcond]
        rw [viaFold_none_of_top pf cur endp t battery ([b] ++ stations) htop]
      · intro hfeas
        rcases hfold : viaCandidateFold pf cur endp t battery ([b] ++ stations)
          with _ | res
        · obtain ⟨c, hc, lg, hlg, hfin⟩ := hfeas
          obtain ⟨_, hall⟩ :=
            (viaFold_go pf cur endp t battery ([b] ++ stations) none).1 hfold
          exact absurd (hall c hc lg hlg) hfin
        · obtain ⟨hmem, _, hall⟩ :=
            (viaFold_go pf cur endp t battery ([b] ++ stations) none).2 res hfold
          rcases hmem with hmem | ⟨c, hc, lg, hlg, hres⟩
          · exact Option.noConfusion hmem
          · refine ⟨c, hc, lg, hlg, ?_, ?_⟩
            · rw [planViaBase_else pf b stations cur endp t battery dc ld hd hemp hcond]
              rw [hfold, hres]
            · intro c2 hc2 lg2 hlg2
              have := hall c2 hc2 lg2 hlg2
              rw [hres] at this
              exact this

/-- C4 counterexample. With `length_direct = 5000`, cargo type, battery
100% and a passing escape check, the claimed threshold
`battery_range × battery/100 × 0.9 = 18000` would commit to the direct
route, but the code compares against `per-type-consumption × battery/100
× 0.9 = 1800` and instead returns a via-candidate route of length
10000. -/
theorem c4_uses_consumption_not_battery_range :
    planForC4 (0, 0) (3, 3) "cargo" 100 =
      (some [(0, 0), (3, 3)], ((5000 : ℚ) : WithTop ℚ)) ∧
    ((5000 : ℚ) : WithTop ℚ) ≤
      (((gsGetDroneParams "cargo").battery_range * (100 / 100) * (9/10) : ℚ) : WithTop ℚ) ∧
    canEscapeAfter planForC4 (some (1, 1)) [(2, 2)] (3, 3) "cargo" = true ∧
    planViaBaseIfNeeded planForC4 (some (1, 1)) [(2, 2)] (0, 0) (3, 3) "cargo" 100 =
      (some [(0, 0), (1, 1), (1, 1), (3, 3)], ((10000 : ℚ) : WithTop ℚ)) ∧
    (some [(0, 0), (1, 1), (1, 1), (3, 3)] : Option (List Pt)) ≠
      some [(0, 0), (3, 3)] := by
  have hd : planForC4 (0, 0) (3, 3) "cargo" 100 =
      (some [(0, 0), (3, 3)], ((5000 : ℚ) : WithTop ℚ)) := by
    norm_num [planForC4]
  refine ⟨hd, ?_, ?_, ?_, ?_⟩
  · rw [WithTop.coe_le_coe]
    norm_num [gsGetDroneParams]
  · norm_num [canEscapeAfter, chargersOf, planForC4, perType]
    exact_mod_cast (by norm_num : (100 : ℚ) ≤ 1600)
  · have hn : ¬(((5000 : ℚ) : WithTop ℚ) ≤
        ((perType "cargo" * ((100 : ℚ) / 100) * (9/10) : ℚ) : WithTop ℚ)) := by
      rw [WithTop.coe_le_coe]
      norm_num [perType]
    have hcond : (decide (((5000 : ℚ) : WithTop ℚ) ≤
        ((perType "cargo" * ((100 : ℚ) / 100) * (9/10) : ℚ) : WithTop ℚ)) &&
        canEscapeAfter planForC4 (some (1, 1)) [(2, 2)] (3, 3) "cargo") = false := by
      rw [decide_eq_false hn, Bool.false_and]
    rw [planViaBase_else planForC4 (1, 1) [(2, 2)] (0, 0) (3, 3) "cargo" 100
      [(0, 0), (3, 3)] ((5000 : ℚ) : WithTop ℚ) hd rfl hcond]
    have htop10 : (10000 : WithTop ℚ) < ⊤ := by
      exact_mod_cast WithTop.coe_lt_top (10000 : ℚ)
    have hfold : viaCandidateFold planForC4 (0, 0) (3, 3) "cargo" 100
        ([(1, 1)] ++ [(2, 2)]) =
        some ([(0, 0), (1, 1), (1, 1), (3, 3)], ((10000 : ℚ) : WithTop ℚ)) := by
      unfold viaCandidateFold
      norm_num [viaStep, legsOf, legTotal, planForC4, List.foldl, htop10]
    rw [hfold]
  · intro hEq
    have hlen := congrArg (fun o => (Option.getD o []).length) hEq
    simp at hlen

/-- C4 witness: a short direct route at full battery with a reachable base
is committed directly by the via-base planner. -/
theorem c4_via_base_witness :
    planForC4w (0, 0) (3, 3) "cargo" 100 =
      (some [(0, 0), (3, 3)], ((100 : ℚ) : WithTop ℚ)) ∧
    planViaBaseIfNeeded planForC4w (some (1, 1)) [] (0, 0) (3, 3) "cargo" 100 =
      (some [(0, 0), (3, 3)], ((100 : ℚ) : WithTop ℚ)) :=
  ⟨rfl,
    ((c4_via_base_characterization planForC4w (1, 1) [] (0, 0) (3, 3) "cargo" 100).2.2
      [(0, 0), (3, 3)] ((100 : ℚ) : WithTop ℚ) rfl rfl).1
      (by
        norm_num [canEscapeAfter, chargersOf, planForC4w, perType]
        constructor
        · exact_mod_cast (by norm_num : (100 : ℚ) ≤ 1800)
        · exact_mod_cast (by norm_num : (100 : ℚ) ≤ 1600))⟩

/-! ### C3: range-constrained path search -/

theorem tryAlgos_nil_none (O : RouteOracles) (G : Graph) (m : ℚ) (bl : WithTop ℚ) :
    tryAlgos O G m [] (none, bl) = none := rfl

theorem tryAlgos_nil_some (O : RouteOracles) (G : Graph) (m : ℚ) (p : List NodeId)
    (bl : WithTop ℚ) :
    tryAlgos O G m [] (some p, bl) =
      if bl < ((2 * m : ℚ) : WithTop ℚ) then some p else none := rfl

theorem tryAlgos_cons_none (O : RouteOracles) (G : Graph) (m : ℚ)
    (rest : List (Option (List NodeId))) (acc : Option (List NodeId) × WithTop ℚ) :
    tryAlgos O G m (none :: rest) acc = tryAlgos O G m rest acc := rfl

theorem tryAlgos_cons_some (O : RouteOracles) (G : Graph) (m : ℚ) (path : List NodeId)
    (rest : List (Option (List NodeId))) (acc : Option (List NodeId) × WithTop ℚ) :
    tryAlgos O G m (some path :: rest) acc =
      if 1 < path.length then
        (if calcPathLength O G path ≤ ((m : ℚ) : WithTop ℚ) then some path
         else if calcPathLength O G path < acc.2 then
           tryAlgos O G m rest (some path, calcPathLength O G path)
         else tryAlgos O G m rest acc)
      else tryAlgos O G m rest acc := rfl

theorem found_cons_some (φ : List NodeId → Bool) (path : List NodeId)
    (rest : List (Option (List NodeId))) :
    ((some path :: rest).filterMap id).filter φ =
      if φ path then path :: ((rest.filterMap id).filter φ)
      else (rest.filterMap id).filter φ := by
  show (path :: rest.filterMap id).filter φ = _
  rw [List.filter_cons]

theorem tryAlgos_finds_within (O : RouteOracles) (G : Graph) (maxRange : ℚ) :
    ∀ (rs : List (Option (List NodeId))) (acc : Option (List NodeId) × WithTop ℚ),
      (∃ q ∈ (rs.filterMap id).filter (fun p => 1 < p.length),
          calcPathLength O G q ≤ ((maxRange : ℚ) : WithTop ℚ)) →
      ∃ p, tryAlgos O G maxRange rs acc = some p ∧
        calcPathLength O G p ≤ ((maxRange : ℚ) : WithTop ℚ) := by
  intro rs
  induction rs with
  | nil =>
    intro acc h
    obtain ⟨q, hq, _⟩ := h
    simp at hq
  | cons r rest ih =>
    intro acc h
    rcases r with _ | path
    · rw [tryAlgos_cons_none]
      exact ih acc h
    · rw [tryAlgos_cons_some]
      by_cases hlen : 1 < path.length
      · rw [if_pos hlen]
        by_cases hq : calcPathLength O G path ≤ ((maxRange : ℚ) : WithTop ℚ)
        · rw [if_pos hq]
          exact ⟨path, rfl, hq⟩
        · rw [if_neg hq]
          obtain ⟨q, hqmem, hqle⟩ := h
          rw [found_cons_some, if_pos (decide_eq_true hlen)] at hqmem
          rcases List.mem_cons.1 hqmem with rfl | hqmem
          · exact absurd hqle hq
          · have hrest : ∃ q ∈ (rest.filterMap id).filter (fun p => 1 < p.length),
                calcPathLength O G q ≤ ((maxRange : ℚ) : WithTop ℚ) := ⟨q, hqmem, hqle⟩
            by_cases hbest : calcPathLength O G path < acc.2
            · rw [if_pos hbest]
              exact ih _ hrest
            · rw [if_neg hbest]
              exact ih _ hrest
      · rw [if_neg hlen]
        obtain ⟨q, hqmem, hqle⟩ := h
        rw [found_cons_some, if_neg (by simpa using hlen)] at hqmem
        exact ih acc ⟨q, hqmem, hqle⟩

theorem tryAlgos_some_spec (O : RouteOracles) (G : Graph) (maxRange : ℚ) :
    ∀ (rs : List (Option (List NodeId))) (b : Option (List NodeId)) (bl : WithTop ℚ),
      ((b = none ∧ bl = ⊤) ∨ (∃ bp, b = some bp ∧ bl = calcPathLength O G bp)) →
      ∀ p, tryAlgos O G maxRange rs (b, bl) = some p →
        calcPathLength O G p ≤ ((maxRange : ℚ) : WithTop ℚ) ∨
        (calcPathLength O G p < ((2 * maxRange : ℚ) : WithTop ℚ) ∧
         (b = some p ∨ p ∈ (rs.filterMap id).filter (fun q => 1 < q.length)) ∧
         calcPathLength O G p ≤ bl ∧
         ∀ q ∈ (rs.filterMap id).filter (fun q => 1 < q.length),
           calcPathLength O G p ≤ calcPathLength O G q) := by
  intro rs
  induction rs with
  | nil =>
    intro b bl hacc p hp
    rcases b with _ | bp
    · rw [tryAlgos_nil_none] at hp
      exact Option.noConfusion hp
    · rw [tryAlgos_nil_some] at hp
      rcases hacc with ⟨habs, _⟩ | ⟨bp2, hbp2, hbl⟩
      · exact Option.noConfusion habs
      · by_cases hlt : bl < ((2 * maxRange : ℚ) : WithTop ℚ)
        · rw [if_pos hlt] at hp
          right
          have hpb : bp = p := Option.some.inj hp
          subst hpb
          have hbp3 : bp = bp2 := Option.some.inj hbp2
          refine ⟨?_, Or.inl rfl, ?_, by simp⟩
          · rw [hbp3, ← hbl]
            exact hlt
          · rw [hbp3, ← hbl]
        · rw [if_neg hlt] at hp
          exact Option.noConfusion hp
  | cons r rest ih =>
    intro b bl hacc p hp
    rcases r with _ | path
    · rw [tryAlgos_cons_none] at hp
      have := ih b bl hacc p hp
      rcases this with h | ⟨h1, h2, h3, h4⟩
      · exact Or.inl h
      · exact Or.inr ⟨h1, h2, h3, h4⟩
    · rw [tryAlgos_cons_some] at hp
      by_cases hlen : 1 < path.length
      · have hfcons : ((some path :: rest).filterMap id).filter
            (fun q => (1 : ℕ) < q.length) =
            path :: (rest.filterMap id).filter (fun q => (1 : ℕ) < q.length) := by
          rw [found_cons_some, if_pos (decide_eq_true hlen)]
        rw [if_pos hlen] at hp
        by_cases hq : calcPathLength O G path ≤ ((maxRange : ℚ) : WithTop ℚ)
        · rw [if_pos hq] at hp
          left
          rw [← Option.some.inj hp]
          exact hq
        · rw [if_neg hq] at hp
          by_cases hbest : calcPathLength O G path < bl
          · rw [if_pos hbest] at hp
            have := ih (some path) (calcPathLength O G path)
              (Or.inr ⟨path, rfl, rfl⟩) p hp
            rcases this with h | ⟨h1, h2, h3, h4⟩
            · exact Or.inl h
            · refine Or.inr ⟨h1, ?_, ?_, ?_⟩
              · rw [hfcons]
                rcases h2 with h2 | h2
                · rw [← Option.some.inj h2]
                  exact Or.inr (List.mem_cons_self _ _)
                · exact Or.inr (List.mem_cons_of_mem _ h2)
              · exact le_trans h3 (le_of_lt hbest)
              · rw [hfcons]
                intro q hqm
                rcases List.mem_cons.1 hqm with rfl | hqm
                · exact h3
                · exact h4 q hqm
          · rw [if_neg hbest] at hp
            have := ih b bl hacc p hp
            rcases this with h | ⟨h1, h2, h3, h4⟩
            · exact Or.inl h
            · refine Or.inr ⟨h1, ?_, h3, ?_⟩
              · rw [hfcons]
                rcases h2 with h2 | h2
                · exact Or.inl h2
                · exact Or.inr (List.mem_cons_of_mem _ h2)
              · rw [hfcons]
                intro q hqm
                rcases List.mem_cons.1 hqm with rfl | hqm
                · exact le_trans h3 (le_of_not_lt hbest)
                · exact h4 q hqm
      · have hfcons : ((some path :: rest).filterMap id).filter
            (fun q => (1 : ℕ) < q.length) =
            (rest.filterMap id).filter (fun q => (1 : ℕ) < q.length) := by
          rw [found_cons_some, if_neg (by simpa using hlen)]
        rw [if_neg hlen] at hp
        have := ih b bl hacc p hp
        rcases this with h | ⟨h1, h2, h3, h4⟩
        · exact Or.inl h
        · refine Or.inr ⟨h1, ?_, h3, ?_⟩
          · rw [hfcons]; exact h2
          · rw [hfcons]; exact h4

theorem tryAlgos_none_spec (O : RouteOracles) (G : Graph) (maxRange : ℚ) :
    ∀ (rs : List (Option (List NodeId))) (b : Option (List NodeId)) (bl : WithTop ℚ),
      ((b = none ∧ bl = ⊤) ∨
        (∃ bp, b = some bp ∧ bl = calcPathLength O G bp ∧
          ¬bl < ((2 * maxRange : ℚ) : WithTop ℚ))) →
      (∀ q ∈ (rs.filterMap id).filter (fun p => 1 < p.length),
        ¬calcPathLength O G q ≤ ((maxRange : ℚ) : WithTop ℚ) ∧
        ¬calcPathLength O G q < ((2 * maxRange : ℚ) : WithTop ℚ)) →
      tryAlgos O G maxRange rs (b, bl) = none := by
  intro rs
  induction rs with
  | nil =>
    intro b bl hacc _
    rcases b with _ | bp
    · rw [tryAlgos_nil_none]
    · rcases hacc with ⟨habs, _⟩ | ⟨bp2, _, _, hnlt⟩
      · exact Option.noConfusion habs
      · rw [tryAlgos_nil_some, if_neg hnlt]
  | cons r rest ih =>
    intro b bl hacc hall
    rcases r with _ | path
    · rw [tryAlgos_cons_none]
      exact ih b bl hacc hall
    · rw [tryAlgos_cons_some]
      by_cases hlen : 1 < path.length
      · have hmem : path ∈ ((some path :: rest).filterMap id).filter
            (fun p => (1 : ℕ) < p.length) := by
          rw [found_cons_some, if_pos (decide_eq_true hlen)]
          exact List.mem_cons_self _ _
        obtain ⟨hq1, hq2⟩ := hall path hmem
        rw [if_pos hlen, if_neg hq1]
        have htail : ∀ q ∈ (rest.filterMap id).filter (fun p => (1 : ℕ) < p.length),
            ¬calcPathLength O G q ≤ ((maxRange : ℚ) : WithTop ℚ) ∧
            ¬calcPathLength O G q < ((2 * maxRange : ℚ) : WithTop ℚ) := by
          intro q hq
          refine hall q ?_
          rw [found_cons_some, if_pos (decide_eq_true hlen)]
          exact List.mem_cons_of_mem _ hq
        by_cases hbest : calcPathLength O G path < bl
        · rw [if_pos hbest]
          exact ih (some path) (calcPathLength O G path)
            (Or.inr ⟨path, rfl, rfl, hq2⟩) htail
        · rw [if_neg hbest]
          exact ih b bl hacc htail
      · rw [if_neg hlen]
        refine ih b bl hacc ?_
        intro q hq
        refine hall q ?_
        rw [found_cons_some, if_neg (by simpa using hlen)]
        exact hq

/-- C3. For a path query that reaches the strategy loop (both endpoints
present, distinct, and a target `e2` resolved by the connectivity
fallback), `_find_safe_path` (1) returns a path within `max_range_m`
whenever some tried strategy found one within range, (2) only ever returns
a path that is within `max_range_m`, or else is a strictly-shortest found
path of length under `2 x max_range_m`, and (3) returns no path when every
found path violates both bounds. -/
theorem c3_energy_invariant (O : RouteOracles) (G : Graph) (start e e2 : NodeId)
    (maxRange : ℚ)
    (hs : G.containsNode start = true) (he : G.containsNode e = true)
    (hne : (start == e) = false)
    (htgt : fspTarget O G start e = some e2) :
    ((∃ q ∈ fspFound O G start e2,
        calcPathLength O G q ≤ ((maxRange : ℚ) : WithTop ℚ)) →
      ∃ p, findSafePath O G start e maxRange = some p ∧
        calcPathLength O G p ≤ ((maxRange : ℚ) : WithTop ℚ)) ∧
    (∀ p, findSafePath O G start e maxRange = some p →
      calcPathLength O G p ≤ ((maxRange : ℚ) : WithTop ℚ) ∨
      (calcPathLength O G p < ((2 * maxRange : ℚ) : WithTop ℚ) ∧
       p ∈ fspFound O G start e2 ∧
       ∀ q ∈ fspFound O G start e2,
         calcPathLength O G p ≤ calcPathLength O G q)) ∧
    ((∀ q ∈ fspFound O G start e2,
        ¬calcPathLength O G q ≤ ((maxRange : ℚ) : WithTop ℚ) ∧
        ¬calcPathLength O G q < ((2 * maxRange : ℚ) : WithTop ℚ)) →
      findSafePath O G start e maxRange = none) := by
  have hmain : findSafePath O G start e maxRange =
      tryAlgos O G maxRange (fspCandidates O G start e2) (none, ⊤) := by
    unfold findSafePath
    simp only [hs, he, hne, htgt, Bool.not_true, Bool.or_self, Bool.false_eq_true,
      if_false]
  refine ⟨?_, ?_, ?_⟩
  · intro hex
    rw [hmain]
    exact tryAlgos_finds_within O G maxRange (fspCandidates O G start e2) (none, ⊤) hex
  · intro p hp
    rw [hmain] at hp
    rcases tryAlgos_some_spec O G maxRange (fspCandidates O G start e2) none ⊤
        (Or.inl ⟨rfl, rfl⟩) p hp with h | ⟨h1, h2, _, h4⟩
    · exact Or.inl h
    · rcases h2 with h2 | h2
      · exact Option.noConfusion h2
      · exact Or.inr ⟨h1, h2, h4⟩
  · intro hall
    rw [hmain]
    exact tryAlgos_none_spec O G maxRange (fspCandidates O G start e2) none ⊤
      (Or.inl ⟨rfl, rfl⟩) hall

/-- C3 witness: on the 500 m two-node graph with an A* oracle, the search
with a 1000 m budget returns a path within budget. -/
theorem c3_energy_invariant_witness :
    ∃ p, findSafePath oracles3 CG3 (NodeId.road 0) (NodeId.road 1) 1000 = some p ∧
      calcPathLength oracles3 CG3 p ≤ ((1000 : ℚ) : WithTop ℚ) := by
  have hf : fspFound oracles3 CG3 (NodeId.road 0) (NodeId.road 1) =
      [[NodeId.road 0, NodeId.road 1]] := by rfl
  have hfe : CG3.findEdge (NodeId.road 0) (NodeId.road 1) =
      some ⟨((500 : ℚ) : WithTop ℚ), "road"⟩ := rfl
  have h500 : (0 : WithTop ℚ) < ((500 : ℚ) : WithTop ℚ) := by
    exact_mod_cast (by norm_num : (0 : ℚ) < 500)
  have hlen : calcPathLength oracles3 CG3 [NodeId.road 0, NodeId.road 1] =
      ((500 : ℚ) : WithTop ℚ) := by
    simp [calcPathLength, hfe, h500]
  refine (c3_energy_invariant oracles3 CG3 (NodeId.road 0) (NodeId.road 1)
      (NodeId.road 1) 1000 rfl rfl rfl rfl).1 ?_
  refine ⟨[NodeId.road 0, NodeId.road 1], ?_, ?_⟩
  · rw [hf]
    exact List.mem_singleton_self _
  · rw [hlen]
    exact_mod_cast (by norm_num : (500 : ℚ) ≤ 1000)

/-! ### C1: no-fly zones and edge weights -/

theorem applyZoneNodes_eq (g : Graph) (z : Zone) :
    applyZoneNodes g z = { g with nodes := g.nodes.map (zoneNodeStep z) } := rfl

theorem zoneNodeStep_key (z : Zone) (k : NodeId) (d : NodeData) :
    (zoneNodeStep z (k, d)).1 = k ∧ (zoneNodeStep z (k, d)).2.pos = d.pos := by
  rcases d with ⟨po, w, t⟩
  rcases po with _ | p
  · exact ⟨rfl, rfl⟩
  · by_cases hin : pointInNoFlyZone p z
    · refine ⟨?_, ?_⟩ <;> simp [zoneNodeStep, hin]
    · refine ⟨?_, ?_⟩ <;> simp [zoneNodeStep, hin]

theorem findPos_map_zoneNodeStep (z : Zone) (n : NodeId) :
    ∀ (l : List (NodeId × NodeData)),
      (((l.map (zoneNodeStep z)).find? (fun nd => nd.1 == n)).map Prod.snd).bind
          NodeData.pos =
      ((l.find? (fun nd => nd.1 == n)).map Prod.snd).bind NodeData.pos := by
  intro l
  induction l with
  | nil => rfl
  | cons hd tl ih =>
    rw [List.map_cons]
    rcases hd with ⟨k, d⟩
    by_cases hk : (k == n) = true
    · have h1 : ((zoneNodeStep z (k, d)).1 == n) = true := by
        rw [(zoneNodeStep_key z k d).1]
        exact hk
      rw [@List.find?_cons_of_pos _ (fun nd => nd.1 == n) (zoneNodeStep z (k, d))
          (tl.map (zoneNodeStep z)) h1,
        @List.find?_cons_of_pos _ (fun nd => nd.1 == n) (k, d) tl hk]
      simp only [Option.map_some', Option.some_bind]
      exact (zoneNodeStep_key z k d).2
    · have h1 : ¬((zoneNodeStep z (k, d)).1 == n) = true := by
        rw [(zoneNodeStep_key z k d).1]
        exact hk
      rw [@List.find?_cons_of_neg _ (fun nd => nd.1 == n) (zoneNodeStep z (k, d))
          (tl.map (zoneNodeStep z)) h1,
        @List.find?_cons_of_neg _ (fun nd => nd.1 == n) (k, d) tl hk]
      exact ih

theorem applyZoneNodes_findPos (g : Graph) (z : Zone) (n : NodeId) :
    (applyZoneNodes g z).findPos n = g.findPos n := by
  rw [applyZoneNodes_eq]
  exact findPos_map_zoneNodeStep z n g.nodes

theorem applyZoneEdges_findPos (g : Graph) (z : Zone) (n : NodeId) :
    (applyZoneEdges g z).findPos n = g.findPos n := rfl

theorem zonePass_findPos (g : Graph) (z : Zone) (n : NodeId) :
    (applyZoneEdges (applyZoneNodes g z) z).findPos n = g.findPos n := by
  rw [applyZoneEdges_findPos, applyZoneNodes_findPos]

theorem zoneEdgeData_char (g : Graph) (z : Zone) (e : NodeId × NodeId × EdgeData)
    (up vp : Pt) (hu : g.findPos e.1 = some up) (hv : g.findPos e.2.1 = some vp) :
    zoneEdgeData g z e =
      if edgeTouchedByZone up vp z then { e.2.2 with weight := ⊤ } else e.2.2 := by
  rcases hfu : g.findNode e.1 with _ | du
  · exfalso
    rw [Graph.findPos, hfu] at hu
    exact Option.noConfusion hu
  rcases hfv : g.findNode e.2.1 with _ | dv
  · exfalso
    rw [Graph.findPos, hfv] at hv
    exact Option.noConfusion hv
  have hup : du.pos = some up := by
    rw [Graph.findPos, hfu] at hu
    exact hu
  have hvp : dv.pos = some vp := by
    rw [Graph.findPos, hfv] at hv
    exact hv
  simp only [zoneEdgeData, hfu, hfv, hup, hvp, Option.elim_some]
  cases h1 : pointInNoFlyZone up z <;> cases h2 : pointInNoFlyZone vp z <;>
    cases h3 : segmentIntersectsZone up vp z <;>
    simp [edgeTouchedByZone, h1, h2, h3]

theorem addNoFlyZones_edges_char (zones : List Zone) :
    ∀ (g : Graph),
      (∀ e ∈ g.edges, ∃ up vp, g.findPos e.1 = some up ∧ g.findPos e.2.1 = some vp) →
      (addNoFlyZones g zones).edges = g.edges.map (fun e =>
        match g.findPos e.1, g.findPos e.2.1 with
        | some up, some vp =>
          if zones.any (edgeTouchedByZone up vp) then
            (e.1, e.2.1, { e.2.2 with weight := (⊤ : WithTop ℚ) })
          else e
        | _, _ => e) := by
  induction zones with
  | nil =>
    intro g hg
    have h2 : ∀ e ∈ g.edges,
        (fun (e : NodeId × NodeId × EdgeData) =>
          match g.findPos e.1, g.findPos e.2.1 with
          | some up, some vp =>
            if List.any [] (edgeTouchedByZone up vp) then
              (e.1, e.2.1, { e.2.2 with weight := (⊤ : WithTop ℚ) })
            else e
          | _, _ => e) e = id e := by
      intro e he
      obtain ⟨up, vp, hu, hv⟩ := hg e he
      simp [hu, hv]
    calc (addNoFlyZones g []).edges = g.edges := rfl
      _ = g.edges.map id := (List.map_id _).symm
      _ = _ := (List.map_congr_left h2).symm
  | cons z zs ih =>
    intro g hg
    have hpos : ∀ n, (applyZoneEdges (applyZoneNodes g z) z).findPos n = g.findPos n :=
      fun n => zonePass_findPos g z n
    have hedges : (applyZoneEdges (applyZoneNodes g z) z).edges =
        g.edges.map (fun e => (e.1, e.2.1, zoneEdgeData (applyZoneNodes g z) z e)) := rfl
    have hg2 : ∀ e ∈ (applyZoneEdges (applyZoneNodes g z) z).edges,
        ∃ up vp, (applyZoneEdges (applyZoneNodes g z) z).findPos e.1 = some up ∧
          (applyZoneEdges (applyZoneNodes g z) z).findPos e.2.1 = some vp := by
      intro e he
      rw [hedges] at he
      obtain ⟨e0, he0, rfl⟩ := List.mem_map.1 he
      obtain ⟨up, vp, hu, hv⟩ := hg e0 he0
      exact ⟨up, vp, by rw [hpos]; exact hu, by rw [hpos]; exact hv⟩
    rw [show addNoFlyZones g (z :: zs) =
        addNoFlyZones (applyZoneEdges (applyZoneNodes g z) z) zs from rfl]
    rw [ih (applyZoneEdges (applyZoneNodes g z) z) hg2, hedges, List.map_map]
    apply List.map_congr_left
    intro e he
    obtain ⟨up, vp, hu, hv⟩ := hg e he
    have hu2 : (applyZoneNodes g z).findPos e.1 = some up := by
      rw [applyZoneNodes_findPos]
      exact hu
    have hv2 : (applyZoneNodes g z).findPos e.2.1 = some vp := by
      rw [applyZoneNodes_findPos]
      exact hv
    simp only [Function.comp_apply, hpos, hu, hv]
    rw [zoneEdgeData_char (applyZoneNodes g z) z e up vp hu2 hv2, List.any_cons]
    by_cases h1 : edgeTouchedByZone up vp z = true <;>
      by_cases h2 : zs.any (edgeTouchedByZone up vp) = true <;>
      simp [h1, h2]

/-- C1. For a graph whose edges all join positioned nodes,
`_add_no_fly_zones` rewrites each edge pointwise: the edge keeps its
endpoints and its data is set to weight `+inf` exactly when some zone
contains an endpoint or the segment between the endpoints intersects the
zone rectangle; every other edge is left identical, so its weight stays
its original length. -/
theorem c1_no_fly_zone_edge_weights (G : Graph) (zones : List Zone)
    (hg : ∀ e ∈ G.edges, ∃ up vp, G.findPos e.1 = some up ∧ G.findPos e.2.1 = some vp) :
    (addNoFlyZones G zones).edges = G.edges.map (fun e =>
      match G.findPos e.1, G.findPos e.2.1 with
      | some up, some vp =>
        if zones.any (edgeTouchedByZone up vp) then
          (e.1, e.2.1, { e.2.2 with weight := (⊤ : WithTop ℚ) })
        else e
      | _, _ => e) :=
  addNoFlyZones_edges_char zones G hg

/-- C1 witness: the characterization applied to the two-node 500 m graph
and a single rectangle zone. -/
theorem c1_no_fly_zone_witness :
    (addNoFlyZones CG3 [⟨-1, 1, -1, 1⟩]).edges = CG3.edges.map (fun e =>
      match CG3.findPos e.1, CG3.findPos e.2.1 with
      | some up, some vp =>
        if List.any [⟨-1, 1, -1, 1⟩] (edgeTouchedByZone up vp) then
          (e.1, e.2.1, { e.2.2 with weight := (⊤ : WithTop ℚ) })
        else e
      | _, _ => e) := by
  refine c1_no_fly_zone_edge_weights CG3 [⟨-1, 1, -1, 1⟩] ?_
  intro e he
  have he2 : e = (NodeId.road 0, NodeId.road 1, ⟨(500 : ℚ), "road"⟩) :=
    List.mem_singleton.1 he
  subst he2
  exact ⟨(0, 0), (0, 1/200), rfl, rfl⟩

/-! ### C2: door-to-door planning does not mutate the shared graph -/

theorem containsNode_iff (G : Graph) (k : NodeId) :
    G.containsNode k = true ↔ k ∈ G.keys := by
  unfold Graph.containsNode Graph.keys
  rw [List.any_eq_true]
  constructor
  · rintro ⟨nd, hmem, hbeq⟩
    exact List.mem_map.2 ⟨nd, hmem, eq_of_beq hbeq⟩
  · intro hk
    obtain ⟨nd, hmem, hk2⟩ := List.mem_map.1 hk
    exact ⟨nd, hmem, by rw [hk2]; exact beq_self_eq_true k⟩

theorem containsNode_true_of_mem (G : Graph) (k : NodeId) (h : k ∈ G.keys) :
    G.containsNode k = true := (containsNode_iff G k).2 h

theorem freshTempAux_succ (G : Graph) (s : String) (fuel k : Nat) :
    freshTempAux G s (fuel + 1) k =
      if G.containsNode (NodeId.temp s k) then freshTempAux G s fuel (k + 1) else k := rfl

theorem freshTempAux_free (G : Graph) (s : String) :
    ∀ (fuel k : Nat),
      (∃ j, j < fuel ∧ G.containsNode (NodeId.temp s (k + j)) = false) →
      G.containsNode (NodeId.temp s (freshTempAux G s fuel k)) = false := by
  intro fuel
  induction fuel with
  | zero =>
    rintro k ⟨j, hj, _⟩
    exact absurd hj (Nat.not_lt_zero j)
  | succ fuel ih =>
    intro k h
    rw [freshTempAux_succ]
    by_cases hc : G.containsNode (NodeId.temp s k) = true
    · rw [if_pos hc]
      obtain ⟨j, hj, hfree⟩ := h
      rcases j with _ | j2
      · rw [Nat.add_zero] at hfree
        rw [hfree] at hc
        exact Bool.noConfusion hc
      · refine ih (k + 1) ⟨j2, Nat.lt_of_succ_lt_succ hj, ?_⟩
        rw [show k + 1 + j2 = k + (j2 + 1) from by omega]
        exact hfree
    · rw [if_neg hc]
      exact Bool.eq_false_iff.2 hc

theorem exists_free_temp (G : Graph) (s : String) (k : Nat) :
    ∃ j, j < G.nodes.length + 1 ∧ G.containsNode (NodeId.temp s (k + j)) = false := by
  by_contra hcon
  push_neg at hcon
  have hsub : (List.range (G.nodes.length + 1)).map (fun j => NodeId.temp s (k + j)) ⊆
      G.keys := by
    intro x hx
    obtain ⟨j, hj, rfl⟩ := List.mem_map.1 hx
    have hj2 : j < G.nodes.length + 1 := List.mem_range.1 hj
    exact (containsNode_iff G _).1 (Bool.ne_false_iff.1 (hcon j hj2))
  have hnd : ((List.range (G.nodes.length + 1)).map (fun j => NodeId.temp s (k + j))).Nodup := by
    refine List.Nodup.map ?_ (List.nodup_range _)
    intro a b hab
    rw [NodeId.temp.injEq] at hab
    omega
  have hlen := (List.subperm_of_subset hnd hsub).length_le
  simp only [List.length_map, List.length_range] at hlen
  have hkl : G.keys.length = G.nodes.length := by
    unfold Graph.keys
    exact List.length_map _ _
  omega

theorem freshTemp_not_mem (G : Graph) (s : String) (seed : Nat) :
    G.containsNode (freshTemp G s seed) = false :=
  freshTempAux_free G s (G.nodes.length + 1) seed (exists_free_temp G s seed)

theorem freshTemp_not_key (G : Graph) (s : String) (seed : Nat) :
    freshTemp G s seed ∉ G.keys := by
  intro hmem
  have h1 := freshTemp_not_mem G s seed
  rw [containsNode_true_of_mem G _ hmem] at h1
  exact Bool.noConfusion h1

theorem addNode_not_contained (H : Graph) (t : NodeId) (d : NodeData)
    (h : H.containsNode t = false) :
    H.addNode t d = { H with nodes := H.nodes ++ [(t, d)] } := by
  unfold Graph.addNode
  simp only [h, Bool.false_eq_true, if_false]

theorem ensureNode_of_contained (H : Graph) (k : NodeId) (h : H.containsNode k = true) :
    H.ensureNode k = H := by
  unfold Graph.ensureNode
  rw [if_pos h]

theorem addEdge_of_contained (H : Graph) (t n : NodeId) (d : EdgeData)
    (h1 : H.containsNode t = true) (h2 : H.containsNode n = true) :
    H.addEdge t n d =
      if H.edges.any (edgeMatches t n) then
        { H with edges :=
            H.edges.map (fun e => if edgeMatches t n e then (e.1, e.2.1, d) else e) }
      else { H with edges := H.edges ++ [(t, n, d)] } := by
  unfold Graph.addEdge
  rw [ensureNode_of_contained H t h1, ensureNode_of_contained H n h2]

theorem keys_append_of_TempExt (G : Graph) (T : List NodeId) (H : Graph)
    (h : TempExt G T H) : H.keys = G.keys ++ T := by
  obtain ⟨-, -, ⟨extraN, hN, hkeys⟩, -⟩ := h
  unfold Graph.keys
  rw [hN, List.map_append, hkeys]

theorem TempExt_refl (G : Graph) : TempExt G [] G :=
  ⟨fun t ht => absurd ht (List.not_mem_nil t), List.nodup_nil,
   ⟨[], (List.append_nil _).symm, rfl⟩,
   ⟨[], (List.append_nil _).symm, fun e he => absurd he (List.not_mem_nil e)⟩⟩

theorem TempExt_addNode (G : Graph) (T : List NodeId) (H : Graph)
    (h : TempExt G T H) (t : NodeId) (d : NodeData)
    (htG : t ∉ G.keys) (htT : t ∉ T) :
    TempExt G (T ++ [t]) (H.addNode t d) := by
  obtain ⟨hfresh, hnd, ⟨extraN, hN, hkeys⟩, ⟨extraE, hE, htouch⟩⟩ := h
  have hmem : t ∉ H.keys := by
    rw [keys_append_of_TempExt G T H ⟨hfresh, hnd, ⟨extraN, hN, hkeys⟩, ⟨extraE, hE, htouch⟩⟩]
    intro hx
    rcases List.mem_append.1 hx with hx | hx
    · exact htG hx
    · exact htT hx
  have hct : H.containsNode t = false := by
    cases hcc : H.containsNode t
    · rfl
    · exact absurd ((containsNode_iff H t).1 hcc) hmem
  rw [addNode_not_contained H t d hct]
  refine ⟨?_, ?_, ⟨extraN ++ [(t, d)], ?_, ?_⟩, ⟨extraE, hE, ?_⟩⟩
  · intro x hx
    rcases List.mem_append.1 hx with hx | hx
    · exact hfresh x hx
    · rw [List.mem_singleton.1 hx]
      exact htG
  · refine hnd.append (List.nodup_singleton t) ?_
    intro a ha hat
    exact htT (by rw [← List.mem_singleton.1 hat]; exact ha)
  · show H.nodes ++ [(t, d)] = G.nodes ++ (extraN ++ [(t, d)])
    rw [hN, List.append_assoc]
  · rw [List.map_append, hkeys]
    rfl
  · intro e he
    obtain ⟨t2, ht2, hc⟩ := htouch e he
    exact ⟨t2, List.mem_append_left _ ht2, hc⟩

theorem TempExt_addEdge (G : Graph) (hG : G.Wf) (T : List NodeId) (H : Graph)
    (h : TempExt G T H) (t n : NodeId) (d : EdgeData)
    (ht : t ∈ T) (hn : n ∈ H.keys) :
    TempExt G T (H.addEdge t n d) := by
  obtain ⟨hfresh, hnd, ⟨extraN, hN, hkeys⟩, ⟨extraE, hE, htouch⟩⟩ := h
  have hAll : TempExt G T H := ⟨hfresh, hnd, ⟨extraN, hN, hkeys⟩, ⟨extraE, hE, htouch⟩⟩
  have hct : H.containsNode t = true :=
    containsNode_true_of_mem H t
      (by rw [keys_append_of_TempExt G T H hAll]; exact List.mem_append_right _ ht)
  have hcn : H.containsNode n = true := containsNode_true_of_mem H n hn
  rw [addEdge_of_contained H t n d hct hcn]
  by_cases hex : H.edges.any (edgeMatches t n) = true
  · rw [if_pos hex]
    refine ⟨hfresh, hnd, ⟨extraN, hN, hkeys⟩,
      ⟨extraE.map (fun e => if edgeMatches t n e then (e.1, e.2.1, d) else e), ?_, ?_⟩⟩
    · show H.edges.map _ = G.edges ++ _
      rw [hE, List.map_append]
      congr 1
      refine (List.map_congr_left ?_).trans (List.map_id _)
      intro e he
      have hend := hG.2 e he
      have ht1 : e.1 ≠ t := fun hh => hfresh t ht (hh ▸ hend.1)
      have ht2 : e.2.1 ≠ t := fun hh => hfresh t ht (hh ▸ hend.2)
      have hm : edgeMatches t n e = false := by
        simp [edgeMatches, ht1, ht2]
      simp [hm]
    · intro e he
      obtain ⟨e0, he0, rfl⟩ := List.mem_map.1 he
      obtain ⟨t2, ht2, hcase⟩ := htouch e0 he0
      by_cases hm : edgeMatches t n e0 = true
      · refine ⟨t2, ht2, ?_⟩
        rw [if_pos hm]
        exact hcase
      · refine ⟨t2, ht2, ?_⟩
        rw [if_neg hm]
        exact hcase
  · rw [if_neg hex]
    refine ⟨hfresh, hnd, ⟨extraN, hN, hkeys⟩, ⟨extraE ++ [(t, n, d)], ?_, ?_⟩⟩
    · show H.edges ++ [(t, n, d)] = G.edges ++ (extraE ++ [(t, n, d)])
      rw [hE, List.append_assoc]
    · intro e he
      rcases List.mem_append.1 he with he | he
      · exact htouch e he
      · rw [List.mem_singleton.1 he]
        exact ⟨t, ht, Or.inl rfl⟩

theorem addEdge_keys_of_contained (H : Graph) (t n : NodeId) (d : EdgeData)
    (h1 : H.containsNode t = true) (h2 : H.containsNode n = true) :
    (H.addEdge t n d).keys = H.keys := by
  unfold Graph.keys
  rw [addEdge_nodes, ensureNode_of_contained H t h1, ensureNode_of_contained H n h2]

theorem TempExt_edgeFold (G : Graph) (hG : G.Wf) (T : List NodeId) (t : NodeId)
    (ht : t ∈ T) (dfun : NodeId × ℚ → EdgeData) :
    ∀ (l : List (NodeId × ℚ)) (H : Graph), TempExt G T H →
      (∀ c ∈ l, c.1 ∈ H.keys) →
      TempExt G T (l.foldl (fun g nd => g.addEdge t nd.1 (dfun nd)) H) := by
  intro l
  induction l with
  | nil =>
    intro H h _
    exact h
  | cons c cs ih =>
    intro H h hc
    rw [List.foldl_cons]
    have hct : H.containsNode t = true :=
      containsNode_true_of_mem H t
        (by rw [keys_append_of_TempExt G T H h]; exact List.mem_append_right _ ht)
    have hcn : H.containsNode c.1 = true :=
      containsNode_true_of_mem H c.1 (hc c (List.mem_cons_self _ _))
    have hkeq : (H.addEdge t c.1 (dfun c)).keys = H.keys :=
      addEdge_keys_of_contained H t c.1 (dfun c) hct hcn
    refine ih (H.addEdge t c.1 (dfun c))
      (TempExt_addEdge G hG T H h t c.1 (dfun c) ht (hc c (List.mem_cons_self _ _))) ?_
    intro c2 hc2
    rw [hkeq]
    exact hc c2 (List.mem_cons_of_mem _ hc2)

theorem TempExt_connectTemp (G : Graph) (hG : G.Wf) (T : List NodeId) (t : NodeId)
    (ht : t ∈ T) (cands : List (NodeId × ℚ)) (H : Graph)
    (h : TempExt G T H) (hc : ∀ c ∈ cands, c.1 ∈ H.keys) :
    TempExt G T (connectTemp H t cands) :=
  TempExt_edgeFold G hG T t ht _ (cands.take 5) H h
    (fun c hcm => hc c (List.take_subset 5 cands hcm))

theorem map_fst_filter_key (t0 : NodeId) (l : List (NodeId × NodeData)) :
    (l.filter (fun nd => !(nd.1 == t0))).map Prod.fst =
      (l.map Prod.fst).filter (fun k => !(k == t0)) := by
  induction l with
  | nil => rfl
  | cons a l ih =>
    by_cases h : (a.1 == t0) = true <;>
      simp [List.filter_cons, h, ih]

theorem TempExt_removeHead (G : Graph) (hG : G.Wf) (t0 : NodeId) (T : List NodeId)
    (H : Graph) (h : TempExt G (t0 :: T) H) :
    TempExt G T (H.removeNodeIfPresent t0) := by
  obtain ⟨hfresh, hnd, ⟨extraN, hN, hkeys⟩, ⟨extraE, hE, htouch⟩⟩ := h
  have hAll : TempExt G (t0 :: T) H :=
    ⟨hfresh, hnd, ⟨extraN, hN, hkeys⟩, ⟨extraE, hE, htouch⟩⟩
  have hct : H.containsNode t0 = true :=
    containsNode_true_of_mem H t0
      (by rw [keys_append_of_TempExt G _ H hAll]
          exact List.mem_append_right _ (List.mem_cons_self _ _))
  have ht0T : t0 ∉ T := (List.nodup_cons.1 hnd).1
  rw [show H.removeNodeIfPresent t0 = H.removeNode t0 from by
    unfold Graph.removeNodeIfPresent; rw [if_pos hct]]
  unfold Graph.removeNode
  refine ⟨fun x hx => hfresh x (List.mem_cons_of_mem _ hx), (List.nodup_cons.1 hnd).2,
    ⟨extraN.filter (fun nd => !(nd.1 == t0)), ?_, ?_⟩,
    ⟨extraE.filter (fun e => !(edgeTouches t0 e)), ?_, ?_⟩⟩
  · show H.nodes.filter _ = _
    rw [hN, List.filter_append]
    congr 1
    refine List.filter_eq_self.2 ?_
    intro nd hnd2
    have hmm : nd.1 ∈ G.keys := List.mem_map_of_mem Prod.fst hnd2
    have hne : nd.1 ≠ t0 := fun hh => hfresh t0 (List.mem_cons_self _ _) (hh ▸ hmm)
    simp [hne]
  · rw [map_fst_filter_key, hkeys]
    rw [List.filter_cons_of_neg (by simp)]
    refine List.filter_eq_self.2 ?_
    intro k hk
    have : k ≠ t0 := fun hh => ht0T (hh ▸ hk)
    simp [this]
  · show H.edges.filter _ = _
    rw [hE, List.filter_append]
    congr 1
    refine List.filter_eq_self.2 ?_
    intro e he
    have hend := hG.2 e he
    have h1 : e.1 ≠ t0 := fun hh => hfresh t0 (List.mem_cons_self _ _) (hh ▸ hend.1)
    have h2 : e.2.1 ≠ t0 := fun hh => hfresh t0 (List.mem_cons_self _ _) (hh ▸ hend.2)
    simp [edgeTouches, h1, h2]
  · intro e he
    obtain ⟨he2, hpe⟩ := List.mem_filter.1 he
    obtain ⟨t2, ht2, hcase⟩ := htouch e he2
    rcases List.mem_cons.1 ht2 with rfl | ht2
    · exfalso
      rcases hcase with hcase | hcase <;> simp [edgeTouches, hcase] at hpe
    · exact ⟨t2, ht2, hcase⟩

theorem cleanup_restores (G : Graph) (hG : G.Wf) :
    ∀ (T : List NodeId) (H : Graph), TempExt G T H →
      T.foldl Graph.removeNodeIfPresent H = G := by
  intro T
  induction T with
  | nil =>
    intro H h
    obtain ⟨-, -, ⟨extraN, hN, hkeys⟩, ⟨extraE, hE, htouch⟩⟩ := h
    have hN0 : extraN = [] := List.map_eq_nil_iff.1 hkeys
    have hE0 : extraE = [] :=
      List.eq_nil_iff_forall_not_mem.2 (fun e he => by
        obtain ⟨t, ht, _⟩ := htouch e he
        exact absurd ht (List.not_mem_nil t))
    have hnn : H.nodes = G.nodes := by rw [hN, hN0, List.append_nil]
    have hee : H.edges = G.edges := by rw [hE, hE0, List.append_nil]
    show H = G
    cases H
    cases G
    simp only [Graph.mk.injEq]
    exact ⟨hnn, hee⟩
  | cons t0 T ih =>
    intro H h
    rw [List.foldl_cons]
    exact ih _ (TempExt_removeHead G hG t0 T H h)

theorem tempCandidates_sub (H : Graph) : ∀ c ∈ tempCandidates H, c.1 ∈ H.keys := by
  intro c hc
  obtain ⟨nd, hnd, he⟩ := List.mem_filterMap.1 hc
  rcases hp : nd.2.pos with _ | p
  · rw [hp] at he
    exact Option.noConfusion he
  · rw [hp] at he
    by_cases hw : (nd.2.weight == ⊤) = true
    · simp [hw] at he
    · simp only [hw, Bool.false_eq_true, if_false, Option.some.injEq] at he
      show c.1 ∈ H.nodes.map Prod.fst
      rw [← he]
      exact List.mem_map_of_mem Prod.fst hnd

theorem TempExt_wpFold (O : RouteOracles) (G : Graph) (hG : G.Wf)
    (candS : List (NodeId × ℚ)) :
    ∀ (wlist : List (Pt × Nat)) (H : Graph) (T ws : List NodeId),
      TempExt G (T ++ ws) H →
      (∀ c ∈ candS, c.1 ∈ H.keys) →
      TempExt G (T ++ (wlist.foldl (addWaypointNode O candS) (H, ws)).2)
        ((wlist.foldl (addWaypointNode O candS) (H, ws)).1) := by
  intro wlist
  induction wlist with
  | nil =>
    intro H T ws h _
    exact h
  | cons wp rest ih =>
    intro H T ws h hc
    rw [List.foldl_cons]
    have hw := freshTemp_not_mem H "tmp_wp" wp.2
    have hwkeys : freshTemp H "tmp_wp" wp.2 ∉ H.keys := by
      intro hm
      rw [containsNode_true_of_mem H _ hm] at hw
      exact Bool.noConfusion hw
    have hkeysH := keys_append_of_TempExt G (T ++ ws) H h
    have hwG : freshTemp H "tmp_wp" wp.2 ∉ G.keys := fun hm =>
      hwkeys (by rw [hkeysH]; exact List.mem_append_left _ hm)
    have hwTws : freshTemp H "tmp_wp" wp.2 ∉ T ++ ws := fun hm =>
      hwkeys (by rw [hkeysH]; exact List.mem_append_right _ hm)
    have h1 : TempExt G ((T ++ ws) ++ [freshTemp H "tmp_wp" wp.2])
        (H.addNode (freshTemp H "tmp_wp" wp.2) ⟨some wp.1, 0, "temp"⟩) :=
      TempExt_addNode G (T ++ ws) H h _ _ hwG hwTws
    have hkGa : (H.addNode (freshTemp H "tmp_wp" wp.2) ⟨some wp.1, 0, "temp"⟩).keys
        = H.keys ++ [freshTemp H "tmp_wp" wp.2] := by
      rw [addNode_not_contained H _ _ hw]
      show (H.nodes ++ _).map Prod.fst = _
      rw [List.map_append]
      rfl
    have h2 := TempExt_edgeFold G hG ((T ++ ws) ++ [freshTemp H "tmp_wp" wp.2])
      (freshTemp H "tmp_wp" wp.2)
      (List.mem_append_right _ (List.mem_singleton_self _))
      (fun nd =>
        ⟨((max 1 (((H.addNode (freshTemp H "tmp_wp" wp.2)
            ⟨some wp.1, 0, "temp"⟩).findPos nd.1).elim 0
            (fun p => approxDist O wp.1 p)) : ℚ) : WithTop ℚ), "temp_connection"⟩)
      (candS.take 5)
      (H.addNode (freshTemp H "tmp_wp" wp.2) ⟨some wp.1, 0, "temp"⟩)
      h1
      (fun c hcm => by
        rw [hkGa]
        exact List.mem_append_left _ (hc c (List.take_subset 5 candS hcm)))
    rw [List.append_assoc] at h2
    refine ih _ T (ws ++ [freshTemp H "tmp_wp" wp.2]) h2 ?_
    intro c hcm
    rw [keys_append_of_TempExt G _ _ h2]
    have hck := hc c hcm
    rw [hkeysH] at hck
    rcases List.mem_append.1 hck with hx | hx
    · exact List.mem_append_left _ hx
    · refine List.mem_append_right _ ?_
      rcases List.mem_append.1 hx with hy | hy
      · exact List.mem_append_left _ hy
      · exact List.mem_append_right _ (List.mem_append_left _ hy)

theorem branch_snd (fp : Option (List NodeId)) (G6 : Graph)
    (g : NodeId → Option Pt) (len : List NodeId → WithTop ℚ) :
    (match fp with
     | none => ((none, none, 0), G6)
     | some p =>
       if p.isEmpty then ((none, none, 0), G6)
       else
         match p.mapM g with
         | none => ((none, none, 0), G6)
         | some coords =>
           ((some p, some coords, len p), G6) :
      (Option (List NodeId) × Option (List Pt) × WithTop ℚ) × Graph).2 = G6 := by
  rcases fp with _ | p
  · rfl
  · by_cases hp : p.isEmpty = true
    · simp [hp]
    · rcases hm : List.mapM.loop g p [] with _ | coords <;> simp [hp, hm]

/-- C2. `plan_direct_path` leaves the shared graph with the same node count
and edge count on every exit path: for a well-formed graph the call in fact
restores the graph exactly, because the temporary start/end/waypoint nodes
are fresh and every temporary edge touches one of them, so the cleanup
removals delete precisely the additions. -/
theorem c2_plan_direct_path_frame (O : RouteOracles) (G : Graph) (startC endC : Pt)
    (maxRange : ℚ) (waypoints : List (Pt × Nat)) (seedS seedE : Nat) (hG : G.Wf) :
    (planDirectPath O G startC endC maxRange waypoints seedS seedE).2.nodes.length
        = G.nodes.length ∧
    (planDirectPath O G startC endC maxRange waypoints seedS seedE).2.edges.length
        = G.edges.length := by
  have hmain : (planDirectPath O G startC endC maxRange waypoints seedS seedE).2 = G := by
    by_cases hemp : G.nodes.isEmpty = true
    · unfold planDirectPath
      rw [if_pos hemp]
    · rcases hfs : findNearestNode G startC with _ | ns
      · unfold planDirectPath
        rw [if_neg hemp, hfs]
      · rcases hfe : findNearestNode G endC with _ | ne
        · unfold planDirectPath
          rw [if_neg hemp, hfs, hfe]
        · have h0 : TempExt G [] G := TempExt_refl G
          have htsG : freshTemp G "tmp_start" seedS ∉ G.keys :=
            freshTemp_not_key G "tmp_start" seedS
          have hteG : freshTemp G "tmp_end" seedE ∉ G.keys :=
            freshTemp_not_key G "tmp_end" seedE
          have hst : freshTemp G "tmp_end" seedE ≠ freshTemp G "tmp_start" seedS := by
            unfold freshTemp
            intro hh
            rw [NodeId.temp.injEq] at hh
            exact absurd hh.1 (by decide)
          have h1 : TempExt G ([] ++ [freshTemp G "tmp_start" seedS])
              (G.addNode (freshTemp G "tmp_start" seedS) ⟨some startC, 0, "temp"⟩) :=
            TempExt_addNode G [] G h0 _ _ htsG (List.not_mem_nil _)
          have h2 : TempExt G
              ([freshTemp G "tmp_start" seedS] ++ [freshTemp G "tmp_end" seedE])
              ((G.addNode (freshTemp G "tmp_start" seedS)
                  ⟨some startC, 0, "temp"⟩).addNode (freshTemp G "tmp_end" seedE)
                  ⟨some endC, 0, "temp"⟩) :=
            TempExt_addNode G [freshTemp G "tmp_start" seedS] _ h1 _ _ hteG
              (fun hm => hst (List.mem_singleton.1 hm))
          have hcandS : ∀ c ∈ ((tempCandidates ((G.addNode (freshTemp G "tmp_start" seedS)
                  ⟨some startC, 0, "temp"⟩).addNode (freshTemp G "tmp_end" seedE)
                  ⟨some endC, 0, "temp"⟩)).map
                (fun np => (np.1, approxDist O startC np.2))).mergeSort
                (fun a b => a.2 ≤ b.2),
              c.1 ∈ ((G.addNode (freshTemp G "tmp_start" seedS)
                  ⟨some startC, 0, "temp"⟩).addNode (freshTemp G "tmp_end" seedE)
                  ⟨some endC, 0, "temp"⟩).keys := by
            intro c hcm
            obtain ⟨np, hnp, rfl⟩ := List.mem_map.1 (List.mem_mergeSort.1 hcm)
            exact tempCandidates_sub _ np hnp
          have hcandE : ∀ c ∈ ((tempCandidates ((G.addNode (freshTemp G "tmp_start" seedS)
                  ⟨some startC, 0, "temp"⟩).addNode (freshTemp G "tmp_end" seedE)
                  ⟨some endC, 0, "temp"⟩)).map
                (fun np => (np.1, approxDist O endC np.2))).mergeSort
                (fun a b => a.2 ≤ b.2),
              c.1 ∈ ((G.addNode (freshTemp G "tmp_start" seedS)
                  ⟨some startC, 0, "temp"⟩).addNode (freshTemp G "tmp_end" seedE)
                  ⟨some endC, 0, "temp"⟩).keys := by
            intro c hcm
            obtain ⟨np, hnp, rfl⟩ := List.mem_map.1 (List.mem_mergeSort.1 hcm)
            exact tempCandidates_sub _ np hnp
          have h3 : TempExt G
              [freshTemp G "tmp_start" seedS, freshTemp G "tmp_end" seedE]
              (connectTemp ((G.addNode (freshTemp G "tmp_start" seedS)
                  ⟨some startC, 0, "temp"⟩).addNode (freshTemp G "tmp_end" seedE)
                  ⟨some endC, 0, "temp"⟩) (freshTemp G "tmp_start" seedS)
                (((tempCandidates ((G.addNode (freshTemp G "tmp_start" seedS)
                    ⟨some startC, 0, "temp"⟩).addNode (freshTemp G "tmp_end" seedE)
                    ⟨some endC, 0, "temp"⟩)).map
                  (fun np => (np.1, approxDist O startC np.2))).mergeSort
                  (fun a b => a.2 ≤ b.2))) :=
            TempExt_connectTemp G hG _ _ (List.mem_cons_self _ _) _ _ h2 hcandS
          have h4 : TempExt G
              [freshTemp G "tmp_start" seedS, freshTemp G "tmp_end" seedE]
              (connectTemp (connectTemp ((G.addNode (freshTemp G "tmp_start" seedS)
                  ⟨some startC, 0, "temp"⟩).addNode (freshTemp G "tmp_end" seedE)
                  ⟨some endC, 0, "temp"⟩) (freshTemp G "tmp_start" seedS)
                (((tempCandidates ((G.addNode (freshTemp G "tmp_start" seedS)
                    ⟨some startC, 0, "temp"⟩).addNode (freshTemp G "tmp_end" seedE)
                    ⟨some endC, 0, "temp"⟩)).map
                  (fun np => (np.1, approxDist O startC np.2))).mergeSort
                  (fun a b => a.2 ≤ b.2))) (freshTemp G "tmp_end" seedE)
                (((tempCandidates ((G.addNode (freshTemp G "tmp_start" seedS)
                    ⟨some startC, 0, "temp"⟩).addNode (freshTemp G "tmp_end" seedE)
                    ⟨some endC, 0, "temp"⟩)).map
                  (fun np => (np.1, approxDist O endC np.2))).mergeSort
                  (fun a b => a.2 ≤ b.2))) := by
            refine TempExt_connectTemp G hG _ _
              (List.mem_cons_of_mem _ (List.mem_cons_self _ _)) _ _ h3 ?_
            intro c hcm
            rw [keys_append_of_TempExt G _ _ h3]
            have hck := hcandE c hcm
            rw [keys_append_of_TempExt G _ _ h2] at hck
            exact hck
          have h5 := TempExt_wpFold O G hG _ waypoints _
            [freshTemp G "tmp_start" seedS, freshTemp G "tmp_end" seedE] [] h4
            (fun c hcm => by
              rw [keys_append_of_TempExt G _ _ h4]
              have hck := hcandS c hcm
              rw [keys_append_of_TempExt G _ _ h2] at hck
              exact hck)
          have hG6 := cleanup_restores G hG _ _ h5
          unfold planDirectPath
          rw [if_neg hemp, hfs, hfe]
          exact (branch_snd _ _ _ _).trans hG6
  rw [hmain]
  exact ⟨rfl, rfl⟩

/-- C2 witness: the frame property applied to the concrete two-node graph. -/
theorem c2_plan_direct_path_witness :
    (planDirectPath oracles3 CG3 (0, 0) (0, 1/200) 1000 [] 7 9).2.nodes.length
        = CG3.nodes.length ∧
    (planDirectPath oracles3 CG3 (0, 0) (0, 1/200) 1000 [] 7 9).2.edges.length
        = CG3.edges.length :=
  c2_plan_direct_path_frame oracles3 CG3 (0, 0) (0, 1/200) 1000 [] 7 9
    (by constructor
        · decide
        · decide)

/-! ### C7: collision avoidance and motion -/

theorem lookup_cons_eq {α : Type} (a k : String) (v : α) (tl : List (String × α))
    (hb : (a == k) = true) : ((k, v) :: tl).lookup a = some v := by
  have hstep : ((k, v) :: tl).lookup a =
      match a == k with | true => some v | false => tl.lookup a := rfl
  rw [hstep]
  simp only [hb]

theorem lookup_cons_ne {α : Type} (a k : String) (v : α) (tl : List (String × α))
    (hb : (a == k) = false) : ((k, v) :: tl).lookup a = tl.lookup a := by
  have hstep : ((k, v) :: tl).lookup a =
      match a == k with | true => some v | false => tl.lookup a := rfl
  rw [hstep]
  simp only [hb]

theorem lookup_update (l : List (String × Drone)) (did : String) (d0 d : Drone)
    (h : l.lookup did = some d0) :
    (l.map (fun kv => if kv.1 = did then (did, d) else kv)).lookup did = some d := by
  induction l with
  | nil => exact Option.noConfusion h
  | cons kv tl ih =>
    rcases kv with ⟨k, v⟩
    by_cases hk : k = did
    · rw [List.map_cons, if_pos (show (k, v).1 = did from hk)]
      exact lookup_cons_eq did did d _ (beq_self_eq_true did)
    · have hb : (did == k) = false := beq_eq_false_iff_ne.2 (fun hh => hk hh.symm)
      rw [List.map_cons, if_neg (show ¬(k, v).1 = did from hk)]
      rw [lookup_cons_ne did k v tl hb] at h
      rw [lookup_cons_ne did k v _ hb]
      exact ih h

theorem updateDrone_lookup (s : FleetState) (did : String) (d0 d : Drone)
    (h : s.drones.lookup did = some d0) :
    (updateDrone s did d).drones.lookup did = some d :=
  lookup_update s.drones did d0 d h

theorem batteryDrain_battery (hav : Hav) (d : Drone) (m : ℚ) :
    (batteryDrain hav d m).battery = max 0 (d.battery - m / perType d.dtype * 100) := by
  simp [batteryDrain]

theorem batteryDrain_keeps (hav : Hav) (d : Drone) (m : ℚ) :
    (batteryDrain hav d m).status = d.status ∧ (batteryDrain hav d m).pos = d.pos := by
  constructor <;> simp [batteryDrain]

theorem computeLinkQuality_keeps (hav : Hav) (base : Option Pt) (wind : ℚ) (d : Drone) :
    (computeLinkQuality hav base wind d).status = d.status ∧
    (computeLinkQuality hav base wind d).pos = d.pos ∧
    (computeLinkQuality hav base wind d).battery = d.battery := by
  rcases base with _ | b <;> refine ⟨?_, ?_, ?_⟩ <;> simp [computeLinkQuality]

theorem recomputeEta_keeps (hav : Hav) (speed : ℚ) (d : Drone) :
    (recomputeEta hav speed d).status = d.status ∧
    (recomputeEta hav speed d).pos = d.pos ∧
    (recomputeEta hav speed d).battery = d.battery := by
  refine ⟨?_, ?_, ?_⟩ <;> simp [recomputeEta]

theorem maybeRoute_no_chargers (hav : Hav) (planFor : PlanFor) (base : Option Pt)
    (stations : List Pt) (d : Drone) (hch : chargersOf base stations = []) :
    maybeRouteToBaseOrStation hav planFor base stations d = d := by
  unfold maybeRouteToBaseOrStation
  rw [hch]
  rfl

theorem droneStepTail_spec (hav : Hav) (planFor : PlanFor) (speed : ℚ) (s : FleetState)
    (did : String) (d3 dx : Drone)
    (hb : ¬d3.battery ≤ 5)
    (hst1 : d3.status ≠ "idle") (hst2 : d3.status ≠ "holding")
    (hpresent : s.drones.lookup did = some dx) :
    ∃ df, (droneStepTail hav planFor speed s did d3).drones.lookup did = some df ∧
      df.status = d3.status ∧ df.pos = d3.pos ∧ df.battery = d3.battery := by
  unfold droneStepTail
  dsimp only
  rw [if_neg (by
    rw [(computeLinkQuality_keeps hav s.base s.windMps d3).2.2]
    exact hb)]
  rw [if_neg (by
    rw [(computeLinkQuality_keeps hav s.base s.windMps d3).1]
    rintro ⟨-, hc | hc⟩
    · exact hst1 hc
    · exact hst2 hc)]
  refine ⟨recomputeEta hav speed (computeLinkQuality hav s.base s.windMps d3),
    updateDrone_lookup s did dx _ hpresent, ?_, ?_, ?_⟩
  · rw [(recomputeEta_keeps hav speed _).1, (computeLinkQuality_keeps hav _ _ _).1]
  · rw [(recomputeEta_keeps hav speed _).2.1, (computeLinkQuality_keeps hav _ _ _).2.1]
  · rw [(recomputeEta_keeps hav speed _).2.2, (computeLinkQuality_keeps hav _ _ _).2.2]

theorem droneStepTail_lowbat (hav : Hav) (planFor : PlanFor) (speed : ℚ) (s : FleetState)
    (did : String) (d3 dx : Drone)
    (hb : d3.battery ≤ 5)
    (hch : chargersOf s.base s.stations = [])
    (hpresent : s.drones.lookup did = some dx) :
    ∃ df, (droneStepTail hav planFor speed s did d3).drones.lookup did = some df ∧
      df.status = "low_battery" ∧ df.pos = d3.pos ∧ df.battery = d3.battery := by
  unfold droneStepTail
  dsimp only
  rw [if_pos (by
    rw [(computeLinkQuality_keeps hav s.base s.windMps d3).2.2]
    exact hb)]
  rw [maybeRoute_no_chargers hav planFor s.base s.stations _ hch]
  refine ⟨recomputeEta hav speed
      { computeLinkQuality hav s.base s.windMps d3 with status := "low_battery" },
    updateDrone_lookup s did dx _ hpresent, ?_, ?_, ?_⟩
  · rw [(recomputeEta_keeps hav speed _).1]
  · rw [(recomputeEta_keeps hav speed _).2.1]
    exact (computeLinkQuality_keeps hav _ _ _).2.1
  · rw [(recomputeEta_keeps hav speed _).2.2]
    exact (computeLinkQuality_keeps hav _ _ _).2.2

/-- C7 (amended). For an enroute drone with a valid non-zone target that is
at least a full tick away and whose battery stays above 5% after the
tick's drain: if the candidate next position is within 8 m of another
drone the drone keeps its position and its status becomes `avoidance`,
otherwise it moves toward the target keeping status `enroute`; in BOTH
cases the battery is drained at the per-type rate for the commanded
distance (the tick speed), not only when moving. -/
theorem c7_collision_avoidance (hav : Hav) (planFor : PlanFor) (s : FleetState)
    (did : String) (d0 : Drone) (target : Pt) (speed dist : ℚ) (nextPos : Pt)
    (h0 : s.drones.lookup did = some d0)
    (h1 : d0.status = "enroute")
    (hidx : d0.targetIdx < d0.route.length)
    (htgt : target = d0.route.getD d0.targetIdx d0.pos)
    (hz : isPointInAnyZone s.noFlyZones target = false)
    (hspeed : speed = max 5 (15 - (3/10) * s.windMps))
    (hdist : dist = hav d0.pos target)
    (hsp : ¬dist < speed)
    (hnext : nextPos = moveTowards d0.pos target (speed / dist))
    (hbat : 5 < max 0 (d0.battery - speed / perType d0.dtype * 100)) :
    ∃ df, (droneStep hav planFor s did).drones.lookup did = some df ∧
      df.battery = max 0 (d0.battery - speed / perType d0.dtype * 100) ∧
      ((willCollide hav s.drones did nextPos = true ∧
        df.pos = d0.pos ∧ df.status = "avoidance") ∨
       (willCollide hav s.drones did nextPos = false ∧
        df.pos = nextPos ∧ df.status = "enroute")) := by
  subst htgt
  subst hspeed
  subst hdist
  subst hnext
  have hne : d0.route ≠ [] :=
    List.ne_nil_of_length_pos (Nat.lt_of_le_of_lt (Nat.zero_le _) hidx)
  have h1e : d0.route.isEmpty = false := by simp [List.isEmpty_iff, hne]
  have h2e : decide (d0.route.length ≤ d0.targetIdx) = false :=
    decide_eq_false (Nat.not_le.2 hidx)
  unfold droneStep
  simp only [h0]
  rw [if_neg (show ¬(d0.status ≠ "enroute") from fun hc => hc h1)]
  simp only [h1e, h2e, Bool.or_self, Bool.false_eq_true, if_false]
  simp only [hz, Bool.false_eq_true, if_false]
  rw [if_neg hsp]
  by_cases hC : willCollide hav s.drones did
      (moveTowards d0.pos (d0.route.getD d0.targetIdx d0.pos)
        (max 5 (15 - (3/10) * s.windMps) /
          hav d0.pos (d0.route.getD d0.targetIdx d0.pos))) = true
  · rw [if_pos hC]
    obtain ⟨df, hdf, hs2, hp2, hb2⟩ := droneStepTail_spec hav planFor
      (max 5 (15 - (3/10) * s.windMps))
      (updateDrone s did { d0 with status := "avoidance" }) did
      (batteryDrain hav { d0 with status := "avoidance" }
        (max 5 (15 - (3/10) * s.windMps)))
      { d0 with status := "avoidance" }
      (by rw [batteryDrain_battery]
          exact not_le.2 hbat)
      (by rw [(batteryDrain_keeps hav _ _).1]
          show ("avoidance" : String) ≠ "idle"
          decide)
      (by rw [(batteryDrain_keeps hav _ _).1]
          show ("avoidance" : String) ≠ "holding"
          decide)
      (updateDrone_lookup s did d0 _ h0)
    refine ⟨df, hdf, ?_, Or.inl ⟨hC, ?_, ?_⟩⟩
    · rw [hb2, batteryDrain_battery]
    · rw [hp2, (batteryDrain_keeps hav _ _).2]
    · rw [hs2, (batteryDrain_keeps hav _ _).1]
  · rw [if_neg hC]
    obtain ⟨df, hdf, hs2, hp2, hb2⟩ := droneStepTail_spec hav planFor
      (max 5 (15 - (3/10) * s.windMps))
      (updateDrone s did
        { d0 with pos := (moveTowards d0.pos (d0.route.getD d0.targetIdx d0.pos)
            (max 5 (15 - (3/10) * s.windMps) /
              hav d0.pos (d0.route.getD d0.targetIdx d0.pos))) }) did
      (batteryDrain hav
        { d0 with pos := (moveTowards d0.pos (d0.route.getD d0.targetIdx d0.pos)
            (max 5 (15 - (3/10) * s.windMps) /
              hav d0.pos (d0.route.getD d0.targetIdx d0.pos))) }
        (max 5 (15 - (3/10) * s.windMps)))
      { d0 with pos := (moveTowards d0.pos (d0.route.getD d0.targetIdx d0.pos)
          (max 5 (15 - (3/10) * s.windMps) /
            hav d0.pos (d0.route.getD d0.targetIdx d0.pos))) }
      (by rw [batteryDrain_battery]
          exact not_le.2 hbat)
      (by rw [(batteryDrain_keeps hav _ _).1]
          show d0.status ≠ "idle"
          rw [h1]
          decide)
      (by rw [(batteryDrain_keeps hav _ _).1]
          show d0.status ≠ "holding"
          rw [h1]
          decide)
      (updateDrone_lookup s did d0 _ h0)
    refine ⟨df, hdf, ?_, Or.inr ⟨Bool.eq_false_iff.2 hC, ?_, ?_⟩⟩
    · rw [hb2, batteryDrain_battery]
    · rw [hp2, (batteryDrain_keeps hav _ _).2]
    · rw [hs2, (batteryDrain_keeps hav _ _).1]
      exact h1

/-- C7 counterexample: the enroute drone at 5% battery whose candidate next
position collides (another drone parked there) ends the tick not in
`avoidance` but in `low_battery` — the post-drain battery check overrides
the avoidance status. -/
theorem c7_low_battery_counterexample :
    ∃ df, (droneStep hav7 nonePlan (CS7 5) "d1").drones.lookup "d1" = some df ∧
      willCollide hav7 (CS7 5).drones "d1"
        (moveTowards (0, 0) (1, 0)
          (max 5 (15 - (3/10) * 0) / hav7 (0, 0) (1, 0))) = true ∧
      df.status = "low_battery" ∧ df.pos = (0, 0) := by
  have hd111 : hav7 (0, 0) (1, 0) = 111194 := by
    unfold hav7
    rw [if_neg (by norm_num [Prod.ext_iff])]
  have h15 : max (5 : ℚ) (15 - (3/10) * 0) = 15 := by
    rw [max_eq_right (by norm_num : (5 : ℚ) ≤ 15 - (3/10) * 0)]
    norm_num
  have hnp : moveTowards (0, 0) (1, 0)
      (max 5 (15 - (3/10) * 0) / hav7 (0, 0) (1, 0)) = (15/111194, 0) := by
    rw [hd111, h15]
    unfold moveTowards
    rw [min_eq_right (by norm_num : (15 : ℚ)/111194 ≤ 1),
      max_eq_right (by norm_num : (0 : ℚ) ≤ 15/111194)]
    norm_num [Prod.ext_iff]
  have hWC : willCollide hav7 (CS7 5).drones "d1"
      (moveTowards (0, 0) (1, 0)
        (max 5 (15 - (3/10) * 0) / hav7 (0, 0) (1, 0))) = true := by
    rw [hnp]
    norm_num [willCollide, CS7, drone7, drone7b, hav7]
    decide
  have hlk : (CS7 5).drones.lookup "d1" = some (drone7 5) := rfl
  have hsp5 : ¬hav7 (drone7 5).pos
      ((drone7 5).route.getD (drone7 5).targetIdx (drone7 5).pos) <
        max 5 (15 - (3/10) * (CS7 5).windMps) := by
    show ¬hav7 (0, 0) (1, 0) < max 5 (15 - (3/10) * 0)
    rw [hd111, h15]
    norm_num
  unfold droneStep
  simp only [hlk]
  rw [if_neg (show ¬(drone7 5).status ≠ "enroute" from fun hc => hc rfl)]
  simp only [show (drone7 5).route.isEmpty = false from rfl,
    show decide ((drone7 5).route.length ≤ (drone7 5).targetIdx) = false from rfl,
    Bool.or_self, Bool.false_eq_true, if_false]
  simp only [show isPointInAnyZone (CS7 5).noFlyZones
      ((drone7 5).route.getD (drone7 5).targetIdx (drone7 5).pos) = false from rfl,
    Bool.false_eq_true, if_false]
  rw [if_neg hsp5]
  rw [if_pos (show willCollide hav7 (CS7 5).drones "d1"
      (moveTowards (drone7 5).pos
        ((drone7 5).route.getD (drone7 5).targetIdx (drone7 5).pos)
        (max 5 (15 - (3/10) * (CS7 5).windMps) /
          hav7 (drone7 5).pos
            ((drone7 5).route.getD (drone7 5).targetIdx (drone7 5).pos))) = true from hWC)]
  obtain ⟨df, hdf, hst, hpos, -⟩ := droneStepTail_lowbat hav7 nonePlan
    (max 5 (15 - (3/10) * (CS7 5).windMps))
    (updateDrone (CS7 5) "d1" { drone7 5 with status := "avoidance" }) "d1"
    (batteryDrain hav7 { drone7 5 with status := "avoidance" }
      (max 5 (15 - (3/10) * (CS7 5).windMps)))
    { drone7 5 with status := "avoidance" }
    (by rw [batteryDrain_battery]
        show max (0 : ℚ) (5 - max 5 (15 - (3/10) * 0) / 2000 * 100) ≤ 5
        rw [h15, max_eq_right (by norm_num : (0 : ℚ) ≤ 5 - 15 / 2000 * 100)]
        norm_num)
    rfl
    (updateDrone_lookup (CS7 5) "d1" (drone7 5) _ rfl)
  refine ⟨df, hdf, hWC, hst, ?_⟩
  rw [hpos, (batteryDrain_keeps hav7 _ _).2]
  rfl

/-- C7 witness: the amended motion theorem at a healthy battery level on
the same two-drone scene; the battery is drained by the tick's commanded
distance at the cargo rate. -/
theorem c7_collision_witness :
    ∃ df, (droneStep hav7 nonePlan (CS7 50) "d1").drones.lookup "d1" = some df ∧
      df.battery = 197/4 := by
  have hd111 : hav7 (drone7 50).pos
      ((drone7 50).route.getD (drone7 50).targetIdx (drone7 50).pos) = 111194 := by
    show hav7 (0, 0) (1, 0) = 111194
    unfold hav7
    rw [if_neg (by norm_num [Prod.ext_iff])]
  have h15 : max (5 : ℚ) (15 - (3/10) * (CS7 50).windMps) = 15 := by
    show max (5 : ℚ) (15 - (3/10) * 0) = 15
    rw [max_eq_right (by norm_num : (5 : ℚ) ≤ 15 - (3/10) * 0)]
    norm_num
  obtain ⟨df, hdf, hb, -⟩ := c7_collision_avoidance hav7 nonePlan (CS7 50) "d1"
    (drone7 50) _ _ _ _ rfl rfl (by decide) rfl rfl rfl rfl
    (by rw [hd111, h15]
        norm_num)
    rfl
    (by rw [h15]
        show (5 : ℚ) < max 0 (50 - 15 / 2000 * 100)
        rw [max_eq_right (by norm_num : (0 : ℚ) ≤ 50 - 15 / 2000 * 100)]
        norm_num)
  refine ⟨df, hdf, ?_⟩
  rw [hb, h15]
  show max (0 : ℚ) (50 - 15 / 2000 * 100) = 197/4
  rw [max_eq_right (by norm_num : (0 : ℚ) ≤ 50 - 15 / 2000 * 100)]
  norm_num

/-! ### C9: an idle tick and drone/order statuses -/

theorem lookup_map_entry (l : List (String × Drone)) (did : String) (dnew : Drone) :
    ∀ did2, did2 ≠ did →
      (l.map (fun kv => if kv.1 = did then (did, dnew) else kv)).lookup did2 =
        l.lookup did2 := by
  induction l with
  | nil =>
    intro did2 _
    rfl
  | cons kv tl ih =>
    intro did2 hne
    rcases kv with ⟨k, v⟩
    rw [List.map_cons]
    by_cases hk : k = did
    · rw [if_pos (show (k, v).1 = did from hk)]
      have hb2 : (did2 == did) = false := beq_eq_false_iff_ne.2 hne
      rw [lookup_cons_ne did2 did dnew _ hb2]
      rw [lookup_cons_ne did2 k v tl (by rw [hk]; exact hb2)]
      exact ih did2 hne
    · rw [if_neg (show ¬(k, v).1 = did from hk)]
      by_cases h2 : (did2 == k) = true
      · rw [lookup_cons_eq did2 k v _ h2, lookup_cons_eq did2 k v tl h2]
      · have h2f : (did2 == k) = false := Bool.eq_false_iff.2 h2
        rw [lookup_cons_ne did2 k v _ h2f, lookup_cons_ne did2 k v tl h2f]
        exact ih did2 hne

theorem mapfst_map_entry (l : List (String × Drone)) (did : String) (dnew : Drone) :
    (l.map (fun kv => if kv.1 = did then (did, dnew) else kv)).map Prod.fst =
      l.map Prod.fst := by
  rw [List.map_map]
  apply List.map_congr_left
  intro kv _
  by_cases hk : kv.1 = did
  · simp [Function.comp, hk]
  · simp [Function.comp, hk]

theorem lookup_unique_of_nodup (did : String) (d : Drone) :
    ∀ (l : List (String × Drone)), (l.map Prod.fst).Nodup → l.lookup did = some d →
      ∀ kv ∈ l, kv.1 = did → kv.2 = d := by
  intro l
  induction l with
  | nil =>
    intro _ _ kv h
    exact absurd h (List.not_mem_nil kv)
  | cons hd tl ih =>
    intro hk hlk kv hmem hkey
    rcases hd with ⟨k, v⟩
    rw [List.map_cons] at hk
    have hnd := List.nodup_cons.1 hk
    rcases List.mem_cons.1 hmem with rfl | hmem2
    · rw [lookup_cons_eq did k v tl (by
        rw [show k = did from hkey]
        exact beq_self_eq_true did)] at hlk
      exact Option.some.inj hlk
    · by_cases hkd : (did == k) = true
      · exfalso
        have hke : k = did := (eq_of_beq hkd).symm
        refine hnd.1 ?_
        rw [hke]
        have hmm := List.mem_map_of_mem Prod.fst hmem2
        rw [hkey] at hmm
        exact hmm
      · have hkdf : (did == k) = false := Bool.eq_false_iff.2 hkd
        rw [lookup_cons_ne did k v tl hkdf] at hlk
        exact ih hnd.2 hlk kv hmem2 hkey

theorem statusMap_map_entry (l : List (String × Drone)) (did : String) (d dnew : Drone)
    (hstat : dnew.status = d.status)
    (huniq : ∀ kv ∈ l, kv.1 = did → kv.2 = d) :
    statusMap (l.map (fun kv => if kv.1 = did then (did, dnew) else kv)) =
      statusMap l := by
  induction l with
  | nil => rfl
  | cons kv tl ih =>
    have hcons : ∀ (x : String × Drone) (xs : List (String × Drone)),
        statusMap (x :: xs) = (x.1, x.2.status) :: statusMap xs := fun x xs => rfl
    rw [List.map_cons, hcons, hcons]
    congr 1
    · by_cases hk : kv.1 = did
      · rw [if_pos hk]
        have hv := huniq kv (List.mem_cons_self _ _) hk
        show (did, dnew.status) = (kv.1, kv.2.status)
        rw [hk, hv, hstat]
      · rw [if_neg hk]
    · exact ih (fun kv2 h2 hkey => huniq kv2 (List.mem_cons_of_mem _ h2) hkey)

theorem chargeTick_spec (l : List (String × Drone)) (did : String)
    (hk : (l.map Prod.fst).Nodup)
    (hb : ∀ d, l.lookup did = some d → d.battery < 96) :
    statusMap (chargeTick l did).1 = statusMap l ∧
    (chargeTick l did).1.map Prod.fst = l.map Prod.fst ∧
    ∀ did2, did2 ≠ did → (chargeTick l did).1.lookup did2 = l.lookup did2 := by
  unfold chargeTick
  rcases hlk : l.lookup did with _ | d
  · exact ⟨rfl, rfl, fun _ _ => rfl⟩
  · have hlt : ¬(100 : ℚ) ≤ min 100 (d.battery + 4) := by
      have h1 := hb d hlk
      have h2 : min (100 : ℚ) (d.battery + 4) ≤ d.battery + 4 := min_le_right _ _
      intro hc
      linarith
    simp only [hlk]
    rw [if_neg hlt]
    refine ⟨?_, mapfst_map_entry l did _, fun did2 hne => lookup_map_entry l did _ did2 hne⟩
    exact statusMap_map_entry l did d _ rfl (lookup_unique_of_nodup did d l hk hlk)

theorem chargeFold_spec :
    ∀ (ids : List String) (l : List (String × Drone)) (acc : List String),
      (l.map Prod.fst).Nodup →
      ids.Nodup →
      (∀ did ∈ ids, ∀ d, l.lookup did = some d → d.battery < 96) →
      statusMap (ids.foldl (fun acc2 did =>
          let r := chargeTick acc2.1 did
          (r.1, if r.2 then acc2.2 ++ [did] else acc2.2)) (l, acc)).1 = statusMap l ∧
      (ids.foldl (fun acc2 did =>
          let r := chargeTick acc2.1 did
          (r.1, if r.2 then acc2.2 ++ [did] else acc2.2)) (l, acc)).1.map Prod.fst =
        l.map Prod.fst ∧
      ∀ did2, did2 ∉ ids →
        (ids.foldl (fun acc2 did =>
            let r := chargeTick acc2.1 did
            (r.1, if r.2 then acc2.2 ++ [did] else acc2.2)) (l, acc)).1.lookup did2 =
          l.lookup did2 := by
  intro ids
  induction ids with
  | nil =>
    intro l acc _ _ _
    exact ⟨rfl, rfl, fun _ _ => rfl⟩
  | cons did rest ih =>
    intro l acc hk hnd hb
    rw [List.foldl_cons]
    have hnd2 := List.nodup_cons.1 hnd
    obtain ⟨hs1, hf1, hl1⟩ := chargeTick_spec l did hk
      (fun d hd => hb did (List.mem_cons_self _ _) d hd)
    obtain ⟨hs2, hf2, hl2⟩ := ih (chargeTick l did).1
      (if (chargeTick l did).2 then acc ++ [did] else acc)
      (by rw [hf1]; exact hk) hnd2.2
      (fun did2 hdid2 d hd => by
        rw [hl1 did2 (fun hh => hnd2.1 (hh ▸ hdid2))] at hd
        exact hb did2 (List.mem_cons_of_mem _ hdid2) d hd)
    refine ⟨by rw [hs2, hs1], by rw [hf2, hf1], ?_⟩
    intro did2 hdid2
    have hne : did2 ≠ did := fun hh => hdid2 (hh ▸ List.mem_cons_self _ _)
    have hnr : did2 ∉ rest := fun hh => hdid2 (List.mem_cons_of_mem _ hh)
    rw [hl2 did2 hnr, hl1 did2 hne]

theorem queueProgress_spec (l : List (String × Drone)) (q : ChargeQueue)
    (hk : (l.map Prod.fst).Nodup)
    (hnd : q.charging.Nodup)
    (hb : ∀ did ∈ q.charging, ∀ d, l.lookup did = some d → d.battery < 96) :
    statusMap (queueProgress l q).1 = statusMap l ∧
    (queueProgress l q).1.map Prod.fst = l.map Prod.fst ∧
    ∀ did2, did2 ∉ q.charging → (queueProgress l q).1.lookup did2 = l.lookup did2 := by
  obtain ⟨h1, h2, h3⟩ := chargeFold_spec q.charging l [] hk hnd hb
  exact ⟨h1, h2, h3⟩

theorem stationFold_spec :
    ∀ (qs : List (String × ChargeQueue)) (l : List (String × Drone))
      (acc : List (String × ChargeQueue)),
      (l.map Prod.fst).Nodup →
      ((qs.map (fun kv => kv.2.charging)).flatten).Nodup →
      (∀ did ∈ (qs.map (fun kv => kv.2.charging)).flatten, ∀ d,
        l.lookup did = some d → d.battery < 96) →
      statusMap (qs.foldl
          (fun (acc2 : List (String × Drone) × List (String × ChargeQueue)) kv =>
            let r := queueProgress acc2.1 kv.2
            (r.1, acc2.2 ++ [(kv.1, r.2)])) (l, acc)).1 = statusMap l ∧
      (qs.foldl
          (fun (acc2 : List (String × Drone) × List (String × ChargeQueue)) kv =>
            let r := queueProgress acc2.1 kv.2
            (r.1, acc2.2 ++ [(kv.1, r.2)])) (l, acc)).1.map Prod.fst = l.map Prod.fst ∧
      ∀ did2, did2 ∉ (qs.map (fun kv => kv.2.charging)).flatten →
        (qs.foldl
            (fun (acc2 : List (String × Drone) × List (String × ChargeQueue)) kv =>
              let r := queueProgress acc2.1 kv.2
              (r.1, acc2.2 ++ [(kv.1, r.2)])) (l, acc)).1.lookup did2 =
          l.lookup did2 := by
  intro qs
  induction qs with
  | nil =>
    intro l acc _ _ _
    exact ⟨rfl, rfl, fun _ _ => rfl⟩
  | cons q rest ih =>
    intro l acc hk hnd hb
    rw [List.foldl_cons]
    have hflat : ((q :: rest).map (fun kv => kv.2.charging)).flatten =
        q.2.charging ++ ((rest.map (fun kv => kv.2.charging)).flatten) := rfl
    rw [hflat] at hnd hb
    obtain ⟨hnd1, hnd2, hdisj⟩ := List.nodup_append.1 hnd
    obtain ⟨h1, h2, h3⟩ := queueProgress_spec l q.2 hk hnd1
      (fun did hdid d hd => hb did (List.mem_append_left _ hdid) d hd)
    obtain ⟨h4, h5, h6⟩ := ih (queueProgress l q.2).1 (acc ++ [(q.1, (queueProgress l q.2).2)])
      (by rw [h2]; exact hk) hnd2
      (fun did hdid d hd => by
        rw [h3 did (fun hh => hdisj hh hdid)] at hd
        exact hb did (List.mem_append_right _ hdid) d hd)
    refine ⟨by rw [h4, h1], by rw [h5, h2], ?_⟩
    intro did2 hdid2
    rw [hflat] at hdid2
    have hn1 : did2 ∉ q.2.charging := fun hh => hdid2 (List.mem_append_left _ hh)
    have hn2 : did2 ∉ (rest.map (fun kv => kv.2.charging)).flatten :=
      fun hh => hdid2 (List.mem_append_right _ hh)
    rw [h6 did2 hn2, h3 did2 hn1]

theorem progressCharging_spec (s : FleetState)
    (hk : (s.drones.map Prod.fst).Nodup)
    (hnd : (allChargingIds s).Nodup)
    (hb : ∀ did ∈ allChargingIds s, ∀ d, s.drones.lookup did = some d → d.battery < 96) :
    statusMap (progressCharging s).drones = statusMap s.drones ∧
    (progressCharging s).orders = s.orders := by
  have hsplit : allChargingIds s =
      s.baseQueue.charging ++ ((s.stationQueues.map (fun kv => kv.2.charging)).flatten) := rfl
  rw [hsplit] at hnd hb
  obtain ⟨hnd1, hnd2, hdisj⟩ := List.nodup_append.1 hnd
  obtain ⟨h1, h2, h3⟩ := queueProgress_spec s.drones s.baseQueue hk hnd1
    (fun did hdid d hd => hb did (List.mem_append_left _ hdid) d hd)
  obtain ⟨h4, h5, h6⟩ := stationFold_spec s.stationQueues
    (queueProgress s.drones s.baseQueue).1 []
    (by rw [h2]; exact hk) hnd2
    (fun did hdid d hd => by
      rw [h3 did (fun hh => hdisj hh hdid)] at hd
      exact hb did (List.mem_append_right _ hdid) d hd)
  constructor
  · show statusMap (s.stationQueues.foldl
        (fun (acc2 : List (String × Drone) × List (String × ChargeQueue)) kv =>
          let r := queueProgress acc2.1 kv.2
          (r.1, acc2.2 ++ [(kv.1, r.2)]))
        ((queueProgress s.drones s.baseQueue).1, [])).1 = statusMap s.drones
    rw [h4, h1]
  · rfl

theorem lookup_pair_mem (did : String) (d : Drone) :
    ∀ (l : List (String × Drone)), l.lookup did = some d → (did, d) ∈ l := by
  intro l
  induction l with
  | nil =>
    intro h
    exact Option.noConfusion h
  | cons kv tl ih =>
    intro h
    rcases kv with ⟨k, v⟩
    by_cases hkd : (did == k) = true
    · rw [lookup_cons_eq did k v tl hkd] at h
      have hke : did = k := eq_of_beq hkd
      rw [← hke, Option.some.inj h]
      exact List.mem_cons_self _ _
    · rw [lookup_cons_ne did k v tl (Bool.eq_false_iff.2 hkd)] at h
      exact List.mem_cons_of_mem _ (ih h)

theorem droneStep_not_enroute (hav : Hav) (planFor : PlanFor) (s : FleetState)
    (did : String) (hen : ∀ kv ∈ s.drones, kv.2.status ≠ "enroute") :
    droneStep hav planFor s did = s := by
  unfold droneStep
  rcases hlk : s.drones.lookup did with _ | d0
  · rfl
  · simp only [hlk]
    rw [if_pos (hen (did, d0) (lookup_pair_mem did d0 s.drones hlk))]

theorem foldDrones_not_enroute (hav : Hav) (planFor : PlanFor) :
    ∀ (ids : List String) (s : FleetState),
      (∀ kv ∈ s.drones, kv.2.status ≠ "enroute") →
      ids.foldl (droneStep hav planFor) s = s := by
  intro ids
  induction ids with
  | nil =>
    intro s _
    rfl
  | cons did rest ih =>
    intro s hen
    rw [List.foldl_cons, droneStep_not_enroute hav planFor s did hen]
    exact ih s hen

theorem assignOrders_no_queued (hav : Hav) (planFor : PlanFor) (s : FleetState)
    (hq : ∀ o ∈ s.orders, o.status ≠ "queued") :
    assignOrders hav planFor s = s := by
  unfold assignOrders
  by_cases hc : cityTruthy s = true
  · simp only [hc, Bool.not_true, Bool.false_eq_true, if_false]
    have hfil : s.orders.enum.filter (fun io => io.2.status = "queued") = [] := by
      rw [List.filter_eq_nil_iff]
      intro io hio
      have h2 : io.2 ∈ s.orders :=
        List.getElem?_mem (List.mem_enum_iff_getElem?.1 hio)
      simp only [decide_eq_true_eq]
      exact hq io.2 h2
    rw [hfil]
    rfl
  · have hcf : cityTruthy s = false := Bool.eq_false_iff.2 hc
    simp only [hcf, Bool.not_false, if_true]

theorem simulateStep_no_enroute (hav : Hav) (planFor : PlanFor) (s : FleetState)
    (hen : ∀ kv ∈ s.drones, kv.2.status ≠ "enroute")
    (hk : (s.drones.map Prod.fst).Nodup)
    (hnd : (allChargingIds s).Nodup)
    (hb : ∀ did ∈ allChargingIds s, ∀ d, s.drones.lookup did = some d → d.battery < 96) :
    statusMap (simulateStep hav planFor s).drones = statusMap s.drones ∧
    (simulateStep hav planFor s).orders = s.orders := by
  unfold simulateStep
  by_cases hc : cityTruthy s = true
  · simp only [hc, Bool.not_true, Bool.false_eq_true, if_false]
    rw [foldDrones_not_enroute hav planFor (s.drones.map Prod.fst) s hen]
    exact progressCharging_spec s hk hnd hb
  · have hcf : cityTruthy s = false := Bool.eq_false_iff.2 hc
    simp only [hcf, Bool.not_false, if_true]
    exact ⟨trivial, trivial⟩

/-- C9 (amended). On a state with no queued order, no enroute drone, unique
drone keys and charging-slot ids, `tick()` changes no order's status and no
drone's status provided every drone occupying a charging slot is below 96%
battery; a charging drone at 96% or more reaches 100% during the tick and
has its status rewritten by `progress_charging`. -/
theorem c9_idle_tick_preserves_statuses (hav : Hav) (planFor : PlanFor) (s : FleetState)
    (hq : ∀ o ∈ s.orders, o.status ≠ "queued")
    (hen : ∀ kv ∈ s.drones, kv.2.status ≠ "enroute")
    (hk : (s.drones.map Prod.fst).Nodup)
    (hnd : (allChargingIds s).Nodup)
    (hb : ∀ did ∈ allChargingIds s, ∀ d, s.drones.lookup did = some d → d.battery < 96) :
    (tick hav planFor s).orders.map Order.status = s.orders.map Order.status ∧
    statusMap (tick hav planFor s).drones = statusMap s.drones := by
  unfold tick
  rw [assignOrders_no_queued hav planFor s hq]
  obtain ⟨h1, h2⟩ := simulateStep_no_enroute hav planFor s hen hk hnd hb
  exact ⟨by rw [h2], h1⟩

/-- C9 counterexample: a fleet with no queued orders and no enroute drones
whose single drone is `charging` at 96%: the tick completes the charge and
`progress_charging` flips its status to `idle`, so drone statuses change. -/
theorem c9_idle_tick_counterexample :
    (∀ o ∈ CS9.orders, o.status ≠ "queued") ∧
    (∀ kv ∈ CS9.drones, kv.2.status ≠ "enroute") ∧
    statusMap (tick zeroHav nonePlan CS9).drones ≠ statusMap CS9.drones := by
  refine ⟨?_, ?_, ?_⟩
  · intro o ho
    have := List.mem_singleton.1 ho
    rw [this]
    decide
  · intro kv hkv
    have := List.mem_singleton.1 hkv
    rw [this]
    decide
  · have hassign : assignOrders zeroHav nonePlan CS9 = CS9 :=
      assignOrders_no_queued zeroHav nonePlan CS9 (by
        intro o ho
        have := List.mem_singleton.1 ho
        rw [this]
        decide)
    have hfold : ((CS9.drones.map Prod.fst).foldl (droneStep zeroHav nonePlan) CS9) = CS9 :=
      foldDrones_not_enroute zeroHav nonePlan (CS9.drones.map Prod.fst) CS9 (by
        intro kv hkv
        have := List.mem_singleton.1 hkv
        rw [this]
        decide)
    have htick : tick zeroHav nonePlan CS9 = progressCharging CS9 := by
      unfold tick
      rw [hassign]
      unfold simulateStep
      rw [show (!cityTruthy CS9) = false from rfl]
      simp only [Bool.false_eq_true, if_false]
      rw [hfold]
    have hpc : (progressCharging CS9).drones = (chargeTick CS9.drones "d1").1 := rfl
    have hlk : CS9.drones.lookup "d1" =
        some ⟨(0, 0), "cargo", 96, [], [], 0, "charging", 35, 0, [], 0, 0⟩ := rfl
    have h100 : (100 : ℚ) ≤ min 100 (96 + 4) := by norm_num
    have hct : statusMap (chargeTick CS9.drones "d1").1 = [("d1", "idle")] := by
      unfold chargeTick
      simp only [hlk]
      rw [if_pos h100]
      rfl
    rw [htick]
    rw [show statusMap (progressCharging CS9).drones =
        statusMap (chargeTick CS9.drones "d1").1 from by rw [hpc]]
    rw [hct]
    rw [show statusMap CS9.drones = [("d1", "charging")] from rfl]
    decide

/-- C9 witness: the amended idle-tick theorem on a fleet whose charging
drone sits at 90% — every status survives the tick. -/
theorem c9_idle_tick_witness :
    (tick zeroHav nonePlan CS9w).orders.map Order.status =
      CS9w.orders.map Order.status ∧
    statusMap (tick zeroHav nonePlan CS9w).drones = statusMap CS9w.drones := by
  refine c9_idle_tick_preserves_statuses zeroHav nonePlan CS9w ?_ ?_ ?_ ?_ ?_
  · intro o ho
    rcases List.mem_cons.1 ho with rfl | ho2
    · decide
    · have := List.mem_singleton.1 ho2
      rw [this]
      decide
  · intro kv hkv
    rcases List.mem_cons.1 hkv with rfl | hkv2
    · decide
    · have := List.mem_singleton.1 hkv2
      rw [this]
      decide
  · decide
  · decide
  · intro did hdid d hd
    rw [show allChargingIds CS9w = ["d1"] from rfl] at hdid
    have hde : did = "d1" := List.mem_singleton.1 hdid
    subst hde
    rw [show CS9w.drones.lookup "d1" =
        some ⟨(0, 0), "cargo", 90, [], [], 0, "charging", 35, 0, [], 0, 0⟩ from rfl] at hd
    rw [← Option.some.inj hd]
    norm_num

end Claims













end GPSDron
